import Mathlib

/-!
Shallow embedding of `album_arrange.py` (repository larryhou/albumn).

Python dicts are modelled as association lists where assignment is an
in-place `upsert` (replace at the existing position, else append), matching
dict insertion-order semantics.  Filesystem reads (`os.stat`, `md5` over the
first `hash_size` bytes, `os.path.exists`) are modelled as environment
functions supplied to the run.  An uncaught Python exception is modelled as
an error value that stops the run; in-memory mutations made by the Python
code after the point of death are unobservable (the process exits before
`write_database` runs), so the embedding returns the pre-step state
together with the error.
-/

namespace AlbumArrange

/-- Dict lookup (`d.get(k)` / `k in d`): first binding of the key. -/
def alookup {β : Type} (k : String) : List (String × β) → Option β
  | [] => none
  | (k₁, v) :: rest => if k = k₁ then some v else alookup k rest

/-- Dict assignment `d[k] = v`: replace in place if present, else append. -/
def upsert {β : Type} (k : String) (v : β) : List (String × β) → List (String × β)
  | [] => [(k, v)]
  | (k₁, v₁) :: rest => if k = k₁ then (k, v) :: rest else (k₁, v₁) :: upsert k v rest

/-- `'%0wd' % n` for a nonnegative number: decimal digits left-padded with zeros. -/
def pad (w : Nat) (n : Nat) : String :=
  String.mk (List.replicate (w - (toString n).length) '0') ++ toString n

/-- `'%0wd' % i` for a possibly negative int. -/
def pad_int (w : Nat) (i : Int) : String :=
  if i < 0 then "-" ++ pad (w - 1) i.natAbs else pad w i.natAbs

/-- Python slice `s[:n]`: the first `n` code points. -/
def str_take (s : String) (n : Nat) : String :=
  String.mk (s.data.take n)

/-- A broken-down local time as produced by `time.localtime`. -/
structure Tm where
  year : Nat
  mon : Nat
  day : Nat
deriving DecidableEq

/-- `time.strftime('%Y-%m-%d', t)`. -/
def date_str (t : Tm) : String :=
  pad 4 t.year ++ "-" ++ pad 2 t.mon ++ "-" ++ pad 2 t.day

/-- What the run reads about one source file: `os.stat(p).st_birthtime`, its
broken-down calendar form (used only to state spec-level properties; the code
itself never decomposes the birth time), `time.localtime(os.path.getmtime(p))`,
and the md5 hex digest of the first `hash_size` bytes of the file. -/
structure FileMeta where
  birthtime : Int
  birth : Tm
  mtime : Tm
  digest : String
deriving DecidableEq

/-- One per-year catalog document: field `"hash"` (fingerprint → destination
filename) and field `"index"` (year-month label → next sequence). -/
structure Catalog where
  hash : List (String × String)
  index : List (String × Int)
deriving DecidableEq

/-- What `open`+`json.load` finds at a year's `database.json`. -/
inductive DiskFile where
  | missing
  | malformed
  | doc (hash : Option (List (String × String))) (index : Option (List (String × Int)))

/-- Lines 89-97: missing file gives `{}`, a raised parse error is swallowed
giving `{}`, then the two fields are defaulted to `{}` when absent. -/
def load_database (f : DiskFile) : Catalog :=
  match f with
  | .missing => ⟨[], []⟩
  | .malformed => ⟨[], []⟩
  | .doc h i => ⟨h.getD [], i.getD []⟩

/-- Lines 85-99 `get_database`: return the cached catalog for `name` when
present, else load from disk, default the fields, and cache it. -/
def get_database (disk : String → DiskFile) (cache : List (String × Catalog))
    (name : String) : Catalog × List (String × Catalog) :=
  match alookup name cache with
  | some c => (c, cache)
  | none =>
      let c := load_database (disk name)
      (c, upsert name c cache)

/-- One entry of `increment_list`: `(timestamp, mtime, digest, target_location)`. -/
structure Item where
  timestamp : Int
  mtime : Tm
  digest : String
  path : String
deriving DecidableEq

/-- State threaded through the duplicate-filter loop (lines 103-118). -/
structure ScanState where
  cache : List (String × Catalog)
  accept : List (String × String)
  incr : List Item
  dups : List (String × String)

/-- Lines 104-118, one `target_location`: look up the year catalog by the
modification-time year, skip (logging `[DUP]`) when the digest is already in
that year's hash field or in `accept_map`, else record the item. -/
def dedup_step (disk : String → DiskFile) (meta : String → FileMeta)
    (s : ScanState) (p : String) : ScanState :=
  let m := meta p
  let r := get_database disk s.cache (toString m.mtime.year)
  if (alookup m.digest r.1.hash).isSome ∨ (alookup m.digest s.accept).isSome then
    { s with cache := r.2, dups := s.dups ++ [(m.digest, p)] }
  else
    { cache := r.2
      accept := upsert m.digest p s.accept
      incr := s.incr ++ [⟨m.birthtime, m.mtime, m.digest, p⟩]
      dups := s.dups }

/-- The duplicate-filter loop over the whole `asset_list`. -/
def dedup_run (disk : String → DiskFile) (meta : String → FileMeta) :
    ScanState → List String → ScanState
  | s, [] => s
  | s, p :: rest => dedup_run disk meta (dedup_step disk meta s p) rest

/-- Python string comparison: lexicographic on the code-point sequences. -/
def py_lt (s t : String) : Prop :=
  s.data < t.data

instance : DecidableRel py_lt := fun s t =>
  inferInstanceAs (Decidable (s.data < t.data))

/-- Lines 120-122 `camera_roll_sort`: compare `item[0]` (the birth timestamp)
first, then `item[-1]` (the source path); never returns 0. -/
def camera_roll_sort (a b : Item) : Int :=
  if a.timestamp ≠ b.timestamp then (if b.timestamp < a.timestamp then 1 else -1)
  else (if py_lt b.path a.path then 1 else -1)

/-- `a` may come before `b`: the comparator does not say "greater". -/
def camera_roll_le (a b : Item) : Prop :=
  camera_roll_sort a b ≤ 0

instance : DecidableRel camera_roll_le := fun _ _ => Int.decLe _ _

/-- Line 125: `increment_list.sort(key=cmp_to_key(camera_roll_sort))`.  A
comparison sort; on lists whose `(timestamp, path)` keys are pairwise
distinct the comparator is a strict total order, so every correct comparison
sort (Python's Timsort included) produces the same output list. -/
def sort_items (l : List Item) : List Item :=
  List.insertionSort camera_roll_le l

/-- Position of the last `'.'` in the character list, if any. -/
def last_dot : List Char → Option Nat
  | [] => none
  | c :: rest =>
      match last_dot rest with
      | some i => some (i + 1)
      | none => if c = '.' then some 0 else none

/-- `s[:s.rfind('.')]` including the Python quirk: when there is no dot,
`rfind` gives `-1` and the slice drops the last character. -/
def str_before_last_dot (s : String) : String :=
  match last_dot s.data with
  | some i => String.mk (s.data.take i)
  | none => String.mk (s.data.take (s.data.length - 1))

/-- `s[s.rfind('.')+1:]`: when there is no dot this is the whole string. -/
def str_after_last_dot (s : String) : String :=
  match last_dot s.data with
  | some i => String.mk (s.data.drop (i + 1))
  | none => s

/-- The two ways the placement loop dies: unpacking `live_map.get(common_path)`
when the key is absent raises `TypeError` (line 136 has no default argument),
and `assert not os.path.exists(dst_location)` fails (line 152). -/
inductive RunError where
  | typeError (common_path : String)
  | dstExists (src dst : String)
deriving DecidableEq

/-- State threaded through the placement loop (lines 127-158).  `created` and
`removed` track destination files written and sources moved away, `moves` the
performed copy/move operations, and `allocs` is an observation log of the
fresh sequence allocations `(year, label, sequence)` in order. -/
structure PlaceState where
  cache : List (String × Catalog)
  live : List (String × (Int × Nat))
  created : List String
  removed : List String
  moves : List (String × String)
  allocs : List (String × String × Int)
deriving DecidableEq

instance {ε α : Type} [DecidableEq ε] [DecidableEq α] : DecidableEq (Except ε α) := fun x y =>
  match x, y with
  | .ok a, .ok b =>
      if h : a = b then .isTrue (by rw [h])
      else .isFalse (fun hc => h (Except.ok.inj hc))
  | .ok _, .error _ => .isFalse (fun hc => Except.noConfusion hc)
  | .error _, .ok _ => .isFalse (fun hc => Except.noConfusion hc)
  | .error e, .error f =>
      if h : e = f then .isTrue (by rw [h])
      else .isFalse (fun hc => h (Except.error.inj hc))

/-- `os.path.exists` during the run: initial filesystem plus files created by
this run, minus sources moved away. -/
def fs_sees (fs0 : String → Bool) (s : PlaceState) (p : String) : Bool :=
  s.created.contains p || (fs0 p && !s.removed.contains p)

/-- Line 130: `label = '%02d%02d' % (mtime.tm_year, mtime.tm_mon)`. -/
def year_label (t : Tm) : String :=
  pad 2 t.year ++ pad 2 t.mon

/-- The sequence/companion bookkeeping of lines 134-143, given the unpacked
`live_map` entry `(seq₀, ref)` for this asset's companion key. -/
structure Placement where
  sequence : Int
  live : List (String × (Int × Nat))
  index : List (String × Int)
  allocs : List (String × String × Int)
deriving DecidableEq

/-- Lines 130-143: default the label's counter to 1 when unseen; zero the
carried sequence when the companion member count is already ≥ 2; a falsy
(zero) sequence allocates the label's counter and increments it, otherwise
the carried sequence is reused and the member count incremented. -/
def compute_placement (disk : String → DiskFile) (s : PlaceState) (it : Item)
    (seq₀ : Int) (ref : Nat) : Placement :=
  let label := year_label it.mtime
  let r := get_database disk s.cache (toString it.mtime.year)
  let index₀ := if (alookup label r.1.index).isNone
    then upsert label 1 r.1.index else r.1.index
  let common_path := str_before_last_dot it.path
  let seq₁ : Int := if ref ≥ 2 then 0 else seq₀
  if seq₁ = 0 then
    let v := (alookup label index₀).getD 0
    ⟨v, upsert common_path (v, 1) s.live, upsert label (v + 1) index₀,
      s.allocs ++ [(toString it.mtime.year, label, v)]⟩
  else
    ⟨seq₁, upsert common_path (seq₁, ref + 1) s.live, index₀, s.allocs⟩

/-- Line 145: `file_name = '%s_%04d.%s' % (label, sequence, extension)`. -/
def dest_name (it : Item) (seq : Int) : String :=
  year_label it.mtime ++ "_" ++ pad_int 4 seq ++ "." ++ str_after_last_dot it.path

/-- Lines 146-151: year directory (`'%04d' % year`), optional date
subfolder, then the destination file name. -/
def dest_path (proj : String) (wd : Bool) (it : Item) (seq : Int) : String :=
  (proj ++ "/" ++ pad 4 it.mtime.year ++
    (if wd then "/" ++ date_str it.mtime else "")) ++ "/" ++ dest_name it seq

/-- Lines 128-158, one item of the sorted `increment_list`. -/
def place_step (disk : String → DiskFile) (fs0 : String → Bool)
    (proj : String) (wd wc : Bool)
    (s : PlaceState) (it : Item) : Except RunError PlaceState :=
  match alookup (str_before_last_dot it.path) s.live with
  | none => .error (.typeError (str_before_last_dot it.path))
  | some (seq₀, ref) =>
      let p := compute_placement disk s it seq₀ ref
      let dst := dest_path proj wd it p.sequence
      if fs_sees fs0 s dst then .error (.dstExists it.path dst)
      else
        .ok { cache := upsert (toString it.mtime.year)
                ⟨upsert it.digest (dest_name it p.sequence)
                    (get_database disk s.cache (toString it.mtime.year)).1.hash,
                  p.index⟩
                (get_database disk s.cache (toString it.mtime.year)).2
              live := p.live
              created := s.created ++ [dst]
              removed := if wc then s.removed else s.removed ++ [it.path]
              moves := s.moves ++ [(it.path, dst)]
              allocs := p.allocs }

/-- The placement loop; an uncaught exception stops the run, returning the
state reached before the failing iteration together with the error. -/
def place_run (disk : String → DiskFile) (fs0 : String → Bool)
    (proj : String) (wd wc : Bool) :
    PlaceState → List Item → PlaceState × Option RunError
  | s, [] => (s, none)
  | s, it :: rest =>
      match place_step disk fs0 proj wd wc s it with
      | .ok s₁ => place_run disk fs0 proj wd wc s₁ rest
      | .error e => (s, some e)

/-- Observable outcome of one `import_assets` run: the catalogs flushed by the
final `write_database` loop (none when the run died), the copy/move
operations performed, the `[DUP]` reports, and the fatal error if any. -/
structure RunResult where
  written : List (String × Catalog)
  moves : List (String × String)
  dups : List (String × String)
  allocs : List (String × String × Int)
  failure : Option RunError

/-- Lines 79-161 `import_assets`: duplicate filter, sort, placement, then one
`write_database` per cached year (skipped when the run died). -/
def import_assets (disk : String → DiskFile) (meta : String → FileMeta)
    (fs0 : String → Bool) (project_path : String) (with_date with_copy : Bool)
    (asset_list : List String) : RunResult :=
  let scan := dedup_run disk meta ⟨[], [], [], []⟩ asset_list
  let r := place_run disk fs0 project_path with_date with_copy
    ⟨scan.cache, [], [], [], [], []⟩ (sort_items scan.incr)
  { written := match r.2 with | none => r.1.cache | some _ => []
    moves := r.1.moves
    dups := scan.dups
    allocs := r.1.allocs
    failure := r.2 }

/-- The ways `seperate_database` (lines 163-188) aborts: `assert index_map`
and `assert hash_map` fail on a missing or empty field, the key-set
comparison fails, or a year subdirectory does not exist. -/
inductive SplitError where
  | emptyIndex
  | emptyHash
  | yearMismatch
  | missingDir (path : String)
deriving DecidableEq

/-- `group[year].append(e)` with `group[year] = []` when the year is new. -/
def group_add {α : Type} (year : String) (e : α)
    (g : List (String × List α)) : List (String × List α) :=
  match alookup year g with
  | some l => upsert year (l ++ [e]) g
  | none => g ++ [(year, [e])]

/-- The grouping loops of `seperate_database`: bucket entries by the 4-char
year key extracted from each entry. -/
def group_entries {α : Type} (f : α → String) :
    List α → List (String × List α) → List (String × List α)
  | [], g => g
  | e :: rest, g => group_entries f rest (group_add (f e) e g)

/-- `d1.keys() == d2.keys()`: dict key views compare as sets. -/
def same_keys {α β : Type} (g₁ : List (String × α)) (g₂ : List (String × β)) : Bool :=
  (g₁.map Prod.fst).all (fun k => (g₂.map Prod.fst).contains k) &&
  (g₂.map Prod.fst).all (fun k => (g₁.map Prod.fst).contains k)

/-- The per-year write loop of `seperate_database` (lines 180-188): for each
year of the index grouping, in order, require the year subdirectory to exist
and emit its mini database; an assertion failure aborts with the catalogs
already written. -/
def split_write (fs0 : String → Bool) (project_path : String)
    (gHash : List (String × List (String × String))) :
    List (String × List (String × Int)) →
    List (String × Catalog) × Option SplitError
  | [] => ([], none)
  | (year, ientries) :: rest =>
      if fs0 (project_path ++ "/" ++ year) then
        let mini : Catalog := ⟨(alookup year gHash).getD [], ientries⟩
        let r := split_write fs0 project_path gHash rest
        ((year, mini) :: r.1, r.2)
      else ([], some (.missingDir (project_path ++ "/" ++ year)))

/-- Lines 163-188 `seperate_database`: group the aggregate catalog's index
entries by `label[:4]` and its hash entries by `filename[:4]`, require the
two year key sets to coincide, then write one mini database per year.
Returns the databases written and the fatal error, if any. -/
def seperate_database (fs0 : String → Bool) (project_path : String)
    (db : Catalog) : List (String × Catalog) × Option SplitError :=
  if db.index = [] then ([], some .emptyIndex)
  else
    let gIndex := group_entries (fun e : String × Int => str_take e.1 4) db.index []
    if db.hash = [] then ([], some .emptyHash)
    else
      let gHash := group_entries (fun e : String × String => str_take e.2 4) db.hash []
      if same_keys gHash gIndex then split_write fs0 project_path gHash gIndex
      else ([], some .yearMismatch)

/-! ### Spec-side definitions for refinement comparisons -/

/-- Modelled from the spec: the label the specification says a placed asset
receives — zero-padded `YYYYMM` computed from the capture year/month, where
the capture timestamp is the file's filesystem creation time. -/
def spec_capture_label (m : FileMeta) : String :=
  pad 4 m.birth.year ++ pad 2 m.birth.mon

/-! ### Shared fixtures for concrete evaluations -/

/-- A project root with no catalog files on disk. -/
def disk₀ : String → DiskFile := fun _ => .missing

/-- A destination tree with no pre-existing files. -/
def fs₀ : String → Bool := fun _ => false

/-- Metadata for the three-distinct-files scenario: birth and modification
times 2023-05-01, 2023-05-02, 2023-05-03, distinct digests. -/
def meta₃ : String → FileMeta := fun p =>
  if p = "/src/a.JPG" then ⟨100, ⟨2023, 5, 1⟩, ⟨2023, 5, 1⟩, "d1"⟩
  else if p = "/src/b.JPG" then ⟨200, ⟨2023, 5, 2⟩, ⟨2023, 5, 2⟩, "d2"⟩
  else ⟨300, ⟨2023, 5, 3⟩, ⟨2023, 5, 3⟩, "d3"⟩

/-! ### Association-list lemmas -/

theorem alookup_upsert_self {β : Type} (k : String) (v : β) (l : List (String × β)) :
    alookup k (upsert k v l) = some v := by
  induction l with
  | nil => simp [alookup, upsert]
  | cons head tail ih =>
      by_cases h : k = head.1
      · simp [alookup, upsert, h]
      · simp [alookup, upsert, h, ih]

theorem alookup_upsert_ne {β : Type} {k k₁ : String} (v : β) (l : List (String × β))
    (h : k ≠ k₁) : alookup k (upsert k₁ v l) = alookup k l := by
  induction l with
  | nil => simp [alookup, upsert, h]
  | cons head tail ih =>
      by_cases h₁ : k₁ = head.1
      · subst h₁
        simp [alookup, upsert, h]
      · by_cases h₂ : k = head.1
        · simp [alookup, upsert, h₁, h₂]
        · simp [alookup, upsert, h₁, h₂, ih]

theorem mem_upsert {β : Type} {x : String × β} {k : String} {v : β}
    {l : List (String × β)} (h : x ∈ upsert k v l) : x = (k, v) ∨ x ∈ l := by
  induction l with
  | nil => simpa [upsert] using h
  | cons head tail ih =>
      by_cases h₁ : k = head.1
      · simp only [upsert, if_pos h₁, List.mem_cons] at h
        rcases h with h | h
        · exact .inl h
        · exact .inr (List.mem_cons_of_mem _ h)
      · simp only [upsert, if_neg h₁, List.mem_cons] at h
        rcases h with h | h
        · exact .inr (by simp [h])
        · rcases ih h with h₂ | h₂
          · exact .inl h₂
          · exact .inr (List.mem_cons_of_mem _ h₂)

theorem alookup_mem {β : Type} {k : String} {v : β} {l : List (String × β)}
    (h : alookup k l = some v) : (k, v) ∈ l := by
  induction l with
  | nil => simp [alookup] at h
  | cons head tail ih =>
      by_cases h₁ : k = head.1
      · simp only [alookup, if_pos h₁] at h
        cases head with
        | mk k₂ v₂ =>
            simp only [Option.some_inj] at h
            simp_all
      · simp only [alookup, if_neg h₁] at h
        exact List.mem_cons_of_mem _ (ih h)

/-! ### Claim theorems -/

/-- Claim C1: the spec says an asset whose companion key has no prior state
in this run gets a new sequence allocated from the label's counter.  The
code instead dies: line 136 unpacks `live_map.get(common_path)` without a
default, which raises `TypeError` for every unseen companion key, so the
very first fresh asset of any run aborts it before anything is placed. -/
theorem C1_fresh_companion_key_raises :
    (import_assets disk₀ meta₃ fs₀ "/proj" false false ["/src/a.JPG"]).failure
        = some (.typeError "/src/a") ∧
    (import_assets disk₀ meta₃ fs₀ "/proj" false false ["/src/a.JPG"]).moves = [] ∧
    (import_assets disk₀ meta₃ fs₀ "/proj" false false ["/src/a.JPG"]).written = [] := by
  decide

/-- Claim C7: the spec's scenario — three distinct-content files dated
2023-05-01..03 imported into an empty project produce `202305_0001.*`,
`202305_0002.*`, `202305_0003.*`.  On this exact input the code raises
`TypeError` at the first asset (line 136, see C1) and performs no move at
all, so none of the three destination names is produced. -/
theorem C7_three_file_scenario_raises :
    (import_assets disk₀ meta₃ fs₀ "/proj" false false
        ["/src/a.JPG", "/src/b.JPG", "/src/c.JPG"]).failure
        = some (.typeError "/src/a") ∧
    (import_assets disk₀ meta₃ fs₀ "/proj" false false
        ["/src/a.JPG", "/src/b.JPG", "/src/c.JPG"]).moves = [] ∧
    (import_assets disk₀ meta₃ fs₀ "/proj" false false
        ["/src/a.JPG", "/src/b.JPG", "/src/c.JPG"]).written = [] := by
  decide

/-- Claim C2 counterexample: two accepted assets with identical capture
timestamps whose fingerprint order (`"aaa" < "bbb"`) disagrees with their
source-path order.  The claim predicts ascending fingerprint order, i.e. the
`"aaa"` item first; the code (line 122 compares `item[-1]`, the source path)
puts the `"bbb"` item first. -/
theorem C2_tiebreak_not_fingerprint :
    sort_items [⟨5, ⟨2023, 5, 1⟩, "aaa", "/src/zzz.JPG"⟩,
        ⟨5, ⟨2023, 5, 1⟩, "bbb", "/src/yyy.JPG"⟩]
      = [⟨5, ⟨2023, 5, 1⟩, "bbb", "/src/yyy.JPG"⟩,
        ⟨5, ⟨2023, 5, 1⟩, "aaa", "/src/zzz.JPG"⟩] ∧
    py_lt "aaa" "bbb" := by
  decide

/-- Claim C6: `get_database` returns a fresh empty catalog for a missing
file and for a malformed/unreadable file, returns the parsed document when
the file is present and parses, records the loaded catalog in the per-year
cache, and serves a cached year from the cache alone — the disk contents
(`disk₂` arbitrary) no longer matter for the remainder of the run. -/
theorem C6_get_database_load_and_cache (disk disk₂ : String → DiskFile)
    (cache : List (String × Catalog)) (name : String) :
    (alookup name cache = none → disk name = .missing →
        (get_database disk cache name).1 = ⟨[], []⟩) ∧
    (alookup name cache = none → disk name = .malformed →
        (get_database disk cache name).1 = ⟨[], []⟩) ∧
    (∀ h i, alookup name cache = none → disk name = .doc (some h) (some i) →
        (get_database disk cache name).1 = ⟨h, i⟩) ∧
    (alookup name cache = none →
        alookup name (get_database disk cache name).2
          = some (get_database disk cache name).1) ∧
    (∀ c, alookup name cache = some c →
        get_database disk cache name = (c, cache) ∧
        get_database disk₂ cache name = (c, cache)) := by
  refine ⟨?_, ?_, ?_, ?_, ?_⟩
  · intro hc hd
    simp [get_database, hc, hd, load_database]
  · intro hc hd
    simp [get_database, hc, hd, load_database]
  · intro h i hc hd
    simp [get_database, hc, hd, load_database]
  · intro hc
    simp [get_database, hc, alookup_upsert_self]
  · intro c hc
    exact ⟨by simp [get_database, hc], by simp [get_database, hc]⟩

/-- Witness for C6 at concrete inputs: a missing year loads empty, a
malformed year loads empty, a parsed document is returned as-is and cached,
and a cached year is served from the cache even when the disk changed. -/
theorem C6_witness :
    (get_database (fun _ => .missing) [] "2023").1 = ⟨[], []⟩ ∧
    (get_database (fun _ => .malformed) [] "2023").1 = ⟨[], []⟩ ∧
    (get_database (fun _ => .doc (some [("d1", "202305_0001.JPG")]) (some [("202305", 2)]))
        [] "2023").1 = ⟨[("d1", "202305_0001.JPG")], [("202305", 2)]⟩ ∧
    alookup "2023" (get_database (fun _ => .missing) [] "2023").2
      = some (get_database (fun _ => .missing) [] "2023").1 ∧
    get_database (fun _ => .malformed) [("2023", ⟨[("d1", "n1")], []⟩)] "2023"
      = (⟨[("d1", "n1")], []⟩, [("2023", ⟨[("d1", "n1")], []⟩)]) := by
  refine ⟨?_, ?_, ?_, ?_, ?_⟩
  · exact (C6_get_database_load_and_cache (fun _ => .missing) (fun _ => .missing)
      [] "2023").1 rfl rfl
  · exact (C6_get_database_load_and_cache (fun _ => .malformed) (fun _ => .malformed)
      [] "2023").2.1 rfl rfl
  · exact (C6_get_database_load_and_cache
      (fun _ => .doc (some [("d1", "202305_0001.JPG")]) (some [("202305", 2)]))
      (fun _ => .missing) [] "2023").2.2.1 _ _ rfl rfl
  · exact (C6_get_database_load_and_cache (fun _ => .missing) (fun _ => .missing)
      [] "2023").2.2.2.1 rfl
  · exact ((C6_get_database_load_and_cache (fun _ => .missing) (fun _ => .malformed)
      [("2023", ⟨[("d1", "n1")], []⟩)] "2023").2.2.2.2 _ rfl).2

/-- The strict key order the code actually sorts by: birth timestamp first,
source path (not fingerprint) as the tie-break. -/
def item_key_lt (a b : Item) : Prop :=
  a.timestamp < b.timestamp ∨ (a.timestamp = b.timestamp ∧ py_lt a.path b.path)

theorem camera_roll_le_iff (a b : Item) :
    camera_roll_le a b ↔
      (a.timestamp < b.timestamp ∨
        (a.timestamp = b.timestamp ∧ a.path.data ≤ b.path.data)) := by
  unfold camera_roll_le camera_roll_sort py_lt
  by_cases h : a.timestamp = b.timestamp
  · rw [if_neg (not_not_intro h)]
    by_cases hp : b.path.data < a.path.data
    · rw [if_pos hp]
      constructor
      · intro hc
        exact absurd hc (by norm_num)
      · rintro (hlt | ⟨heq, hle⟩)
        · exact absurd hlt (h ▸ lt_irrefl _)
        · exact absurd hp (not_lt_of_le hle)
    · rw [if_neg hp]
      constructor
      · intro _
        exact .inr ⟨h, le_of_not_lt hp⟩
      · intro _
        norm_num
  · rw [if_pos h]
    by_cases ht : b.timestamp < a.timestamp
    · rw [if_pos ht]
      constructor
      · intro hc
        exact absurd hc (by norm_num)
      · rintro (hlt | ⟨heq, hle⟩)
        · exact absurd (hlt.trans ht) (lt_irrefl _)
        · exact absurd heq h
    · rw [if_neg ht]
      constructor
      · intro _
        exact .inl (lt_of_le_of_ne (le_of_not_lt ht) h)
      · intro _
        norm_num

instance : IsTotal Item camera_roll_le := by
  constructor
  intro a b
  rw [camera_roll_le_iff, camera_roll_le_iff]
  rcases lt_trichotomy a.timestamp b.timestamp with h | h | h
  · exact .inl (.inl h)
  · rcases le_total a.path.data b.path.data with hp | hp
    · exact .inl (.inr ⟨h, hp⟩)
    · exact .inr (.inr ⟨h.symm, hp⟩)
  · exact .inr (.inl h)

instance : IsTrans Item camera_roll_le := by
  constructor
  intro a b c hab hbc
  rw [camera_roll_le_iff] at hab hbc ⊢
  rcases hab with h₁ | ⟨h₁, h₂⟩
  · rcases hbc with h₃ | ⟨h₃, h₄⟩
    · exact .inl (h₁.trans h₃)
    · exact .inl (h₃ ▸ h₁)
  · rcases hbc with h₃ | ⟨h₃, h₄⟩
    · exact .inl (h₁ ▸ h₃)
    · exact .inr ⟨h₁.trans h₃, h₂.trans h₄⟩

/-- Claim C2 (amended): the survivor order is fully determined by the key
`(timestamp, source path)` — for inputs whose keys are pairwise distinct the
sorted output is independent of the original traversal order, and adjacent
survivors are strictly ordered by ascending timestamp with ascending
source-path comparison (not fingerprint) as the tie-break. -/
theorem C2_sort_deterministic_by_timestamp_path (l₁ l₂ : List Item)
    (hperm : l₁.Perm l₂)
    (hkeys : (l₁.map fun it => (it.timestamp, it.path)).Nodup) :
    sort_items l₁ = sort_items l₂ ∧ List.Pairwise item_key_lt (sort_items l₁) := by
  have key_pw : ∀ l : List Item, l.Perm l₁ → List.Pairwise item_key_lt (sort_items l) := by
    intro l hl
    have hsorted : List.Pairwise camera_roll_le (sort_items l) :=
      List.sorted_insertionSort camera_roll_le l
    have hperm₁ : (sort_items l).Perm l₁ :=
      (List.perm_insertionSort camera_roll_le l).trans hl
    have hne₁ : List.Pairwise
        (fun a b : Item => (a.timestamp, a.path) ≠ (b.timestamp, b.path)) l₁ :=
      List.pairwise_map.mp hkeys
    have hne : List.Pairwise
        (fun a b : Item => (a.timestamp, a.path) ≠ (b.timestamp, b.path))
        (sort_items l) := hne₁.perm hperm₁.symm (fun h heq => h heq.symm)
    refine (hsorted.and hne).imp ?_
    intro a b h
    rcases h with ⟨hle, hnekey⟩
    rw [camera_roll_le_iff] at hle
    rcases hle with h₁ | ⟨h₁, h₂⟩
    · exact .inl h₁
    · refine .inr ⟨h₁, ?_⟩
      have hpne : a.path.data ≠ b.path.data := by
        intro hdata
        apply hnekey
        have : a.path = b.path := by
          cases hpa : a.path
          cases hpb : b.path
          simp_all
        rw [h₁, this]
      exact lt_of_le_of_ne h₂ hpne
  have p₁ := key_pw l₁ (List.Perm.refl l₁)
  have p₂ := key_pw l₂ hperm.symm
  haveI : IsAntisymm Item item_key_lt := by
    constructor
    intro a b hab hba
    exfalso
    rcases hab with h₁ | ⟨h₁, h₂⟩ <;> rcases hba with h₃ | ⟨h₃, h₄⟩
    · exact absurd (h₁.trans h₃) (lt_irrefl _)
    · exact absurd h₁ (h₃ ▸ lt_irrefl _)
    · exact absurd h₃ (h₁ ▸ lt_irrefl _)
    · exact absurd (lt_trans h₂ h₄) (lt_irrefl _)
  have hp : (sort_items l₁).Perm (sort_items l₂) :=
    ((List.perm_insertionSort camera_roll_le l₁).trans hperm).trans
      (List.perm_insertionSort camera_roll_le l₂).symm
  exact ⟨List.eq_of_perm_of_sorted hp p₁ p₂, p₁⟩

/-- Witness for C2 (amended) on a concrete two-element tie: both traversal
orders sort to the same list, strictly ordered by the (timestamp, path) key. -/
theorem C2_sort_deterministic_witness :
    sort_items [⟨5, ⟨2023, 5, 1⟩, "aaa", "/src/zzz.JPG"⟩,
        ⟨5, ⟨2023, 5, 1⟩, "bbb", "/src/yyy.JPG"⟩]
      = sort_items [⟨5, ⟨2023, 5, 1⟩, "bbb", "/src/yyy.JPG"⟩,
        ⟨5, ⟨2023, 5, 1⟩, "aaa", "/src/zzz.JPG"⟩] ∧
    List.Pairwise item_key_lt
      (sort_items [⟨5, ⟨2023, 5, 1⟩, "aaa", "/src/zzz.JPG"⟩,
        ⟨5, ⟨2023, 5, 1⟩, "bbb", "/src/yyy.JPG"⟩]) :=
  C2_sort_deterministic_by_timestamp_path
    [⟨5, ⟨2023, 5, 1⟩, "aaa", "/src/zzz.JPG"⟩, ⟨5, ⟨2023, 5, 1⟩, "bbb", "/src/yyy.JPG"⟩]
    [⟨5, ⟨2023, 5, 1⟩, "bbb", "/src/yyy.JPG"⟩, ⟨5, ⟨2023, 5, 1⟩, "aaa", "/src/zzz.JPG"⟩]
    (by decide) (by decide)

/-- Metadata whose creation time (2023-05-01) and modification time
(2024-07-15) fall in different months. -/
def meta₅ : String → FileMeta := fun _ => ⟨100, ⟨2023, 5, 1⟩, ⟨2024, 7, 15⟩, "d1"⟩

/-- A placement state whose companion map already holds `/src/a` with one
member, so the next `/src/a.*` asset goes through the sequence-reuse path
and is actually placed (the fresh path raises, see C1). -/
def live₅ : PlaceState := ⟨[], [("/src/a", (1, 1))], [], [], [], []⟩

/-- Claim C5 counterexample: an asset created 2023-05-01 whose filesystem
modification time is 2024-07-15 is placed at `/proj/2024/202407_0001.JPG` —
label, year directory and catalog year all come from the modification time,
while the label the claim derives from the creation time is `202305`. -/
theorem C5_label_not_from_creation_time :
    (dedup_run disk₀ meta₅ ⟨[], [], [], []⟩ ["/src/a.JPG"]).incr
      = [⟨100, ⟨2024, 7, 15⟩, "d1", "/src/a.JPG"⟩] ∧
    (place_run disk₀ fs₀ "/proj" false false live₅
        (sort_items (dedup_run disk₀ meta₅ ⟨[], [], [], []⟩ ["/src/a.JPG"]).incr)).1.moves
      = [("/src/a.JPG", "/proj/2024/202407_0001.JPG")] ∧
    spec_capture_label (meta₅ "/src/a.JPG") = "202305" ∧
    ("202305" : String) ≠ "202407" := by
  decide

/-- Claim C5 (amended): for every successfully placed asset the destination
label (`year_label it.mtime`), the destination year directory, the optional
date subfolder and the per-year catalog recording the fingerprint are all
computed from the modification-time (`time.localtime(getmtime)`) year and
month of the asset; the creation time is used only as the primary sort key. -/
theorem C5_destination_from_mtime (disk : String → DiskFile) (fs0 : String → Bool)
    (proj : String) (wd wc : Bool) (s : PlaceState) (it : Item) (s₁ : PlaceState)
    (h : place_step disk fs0 proj wd wc s it = .ok s₁) :
    ∃ seq cat,
      s₁.moves = s.moves ++ [(it.path,
        (proj ++ "/" ++ pad 4 it.mtime.year ++
          (if wd then "/" ++ date_str it.mtime else "")) ++ "/" ++
          (year_label it.mtime ++ "_" ++ pad_int 4 seq ++ "." ++
            str_after_last_dot it.path))] ∧
      alookup (toString it.mtime.year) s₁.cache = some cat ∧
      alookup it.digest cat.hash
        = some (year_label it.mtime ++ "_" ++ pad_int 4 seq ++ "." ++
            str_after_last_dot it.path) := by
  unfold place_step at h
  cases hl : alookup (str_before_last_dot it.path) s.live with
  | none =>
      simp only [hl] at h
      exact Except.noConfusion h
  | some pr =>
      obtain ⟨seq₀, ref⟩ := pr
      simp only [hl] at h
      by_cases hfs : fs_sees fs0 s
          (dest_path proj wd it (compute_placement disk s it seq₀ ref).sequence) = true
      · rw [if_pos hfs] at h
        exact Except.noConfusion h
      · rw [if_neg hfs] at h
        simp only [Except.ok.injEq] at h
        subst h
        exact ⟨(compute_placement disk s it seq₀ ref).sequence, _, rfl,
          alookup_upsert_self _ _ _, alookup_upsert_self _ _ _⟩

/-- Witness for C5 (amended) at the concrete reuse-path placement of
`/src/a.JPG` with modification time 2024-07-15. -/
theorem C5_destination_from_mtime_witness :
    ∃ seq cat,
      (⟨[("2024", ⟨[("d1", dest_name ⟨100, ⟨2024, 7, 15⟩, "d1", "/src/a.JPG"⟩ 1)], [("202407", 1)]⟩)],
          [("/src/a", (1, 2))], [dest_path "/proj" false ⟨100, ⟨2024, 7, 15⟩, "d1", "/src/a.JPG"⟩ 1],
          ["/src/a.JPG"],
          [("/src/a.JPG", dest_path "/proj" false ⟨100, ⟨2024, 7, 15⟩, "d1", "/src/a.JPG"⟩ 1)],
          [] ⟩ : PlaceState).moves
        = live₅.moves ++ [("/src/a.JPG",
          ("/proj" ++ "/" ++ pad 4 2024 ++ (if false then "/" ++ date_str ⟨2024, 7, 15⟩ else "")) ++
            "/" ++ (year_label ⟨2024, 7, 15⟩ ++ "_" ++ pad_int 4 seq ++ "." ++
              str_after_last_dot "/src/a.JPG"))] ∧
      alookup (toString 2024)
        (⟨[("2024", ⟨[("d1", dest_name ⟨100, ⟨2024, 7, 15⟩, "d1", "/src/a.JPG"⟩ 1)], [("202407", 1)]⟩)],
          [("/src/a", (1, 2))], [dest_path "/proj" false ⟨100, ⟨2024, 7, 15⟩, "d1", "/src/a.JPG"⟩ 1],
          ["/src/a.JPG"],
          [("/src/a.JPG", dest_path "/proj" false ⟨100, ⟨2024, 7, 15⟩, "d1", "/src/a.JPG"⟩ 1)],
          [] ⟩ : PlaceState).cache = some cat ∧
      alookup "d1" cat.hash
        = some (year_label ⟨2024, 7, 15⟩ ++ "_" ++ pad_int 4 seq ++ "." ++
            str_after_last_dot "/src/a.JPG") :=
  C5_destination_from_mtime disk₀ fs₀ "/proj" false false live₅
    ⟨100, ⟨2024, 7, 15⟩, "d1", "/src/a.JPG"⟩ _ (by decide)

/-- A destination tree where every path already exists. -/
def fs₁ : String → Bool := fun _ => true

/-- Claim C9: when the computed destination path already exists the step
fails with the line-152 assertion and the whole placement loop stops with
the pre-step state — so no move or copy is performed for that asset, its
fingerprint is not recorded, and the existing destination file is not
overwritten; and every successful placement targets a destination that the
filesystem did not contain at that moment. -/
theorem C9_destination_collision_aborts (disk : String → DiskFile) (fs0 : String → Bool)
    (proj : String) (wd wc : Bool) :
    (∀ s it src dst rest,
      place_step disk fs0 proj wd wc s it = .error (.dstExists src dst) →
        fs_sees fs0 s dst = true ∧ src = it.path ∧
        place_run disk fs0 proj wd wc s (it :: rest)
          = (s, some (.dstExists src dst))) ∧
    (∀ s it s₁, place_step disk fs0 proj wd wc s it = .ok s₁ →
        ∃ dst, s₁.moves = s.moves ++ [(it.path, dst)] ∧
          s₁.created = s.created ++ [dst] ∧ fs_sees fs0 s dst = false) := by
  constructor
  · intro s it src dst rest h
    have hrun : place_run disk fs0 proj wd wc s (it :: rest)
        = (s, some (.dstExists src dst)) := by
      simp only [place_run, h]
    refine ⟨?_, ?_, hrun⟩ <;>
    · unfold place_step at h
      cases hl : alookup (str_before_last_dot it.path) s.live with
      | none =>
          simp only [hl] at h
          exact absurd (Except.error.inj h) (by intro hc; exact RunError.noConfusion hc)
      | some pr =>
          obtain ⟨seq₀, ref⟩ := pr
          simp only [hl] at h
          by_cases hfs : fs_sees fs0 s
              (dest_path proj wd it (compute_placement disk s it seq₀ ref).sequence) = true
          · rw [if_pos hfs] at h
            have := Except.error.inj h
            cases this
            first
            | exact hfs
            | rfl
          · rw [if_neg hfs] at h
            exact Except.noConfusion h
  · intro s it s₁ h
    unfold place_step at h
    cases hl : alookup (str_before_last_dot it.path) s.live with
    | none =>
        simp only [hl] at h
        exact Except.noConfusion h
    | some pr =>
        obtain ⟨seq₀, ref⟩ := pr
        simp only [hl] at h
        by_cases hfs : fs_sees fs0 s
            (dest_path proj wd it (compute_placement disk s it seq₀ ref).sequence) = true
        · rw [if_pos hfs] at h
          exact Except.noConfusion h
        · rw [if_neg hfs] at h
          simp only [Except.ok.injEq] at h
          subst h
          exact ⟨dest_path proj wd it (compute_placement disk s it seq₀ ref).sequence,
            rfl, rfl, by simpa using hfs⟩

/-- Witness for C9: on a filesystem where every path exists the step aborts
the loop with the collision error and an unchanged state; on an empty
filesystem the same step places the asset at a previously absent path. -/
theorem C9_destination_collision_witness :
    (fs_sees fs₁ live₅ "/proj/2024/202407_0001.JPG" = true ∧
      "/src/a.JPG" = "/src/a.JPG" ∧
      place_run disk₀ fs₁ "/proj" false false live₅
        [⟨100, ⟨2024, 7, 15⟩, "d1", "/src/a.JPG"⟩]
        = (live₅, some (.dstExists "/src/a.JPG" "/proj/2024/202407_0001.JPG"))) ∧
    (∃ dst,
      (⟨[("2024", ⟨[("d1", dest_name ⟨100, ⟨2024, 7, 15⟩, "d1", "/src/a.JPG"⟩ 1)], [("202407", 1)]⟩)],
          [("/src/a", (1, 2))], [dest_path "/proj" false ⟨100, ⟨2024, 7, 15⟩, "d1", "/src/a.JPG"⟩ 1],
          ["/src/a.JPG"],
          [("/src/a.JPG", dest_path "/proj" false ⟨100, ⟨2024, 7, 15⟩, "d1", "/src/a.JPG"⟩ 1)],
          [] ⟩ : PlaceState).moves = live₅.moves ++ [("/src/a.JPG", dst)] ∧
      (⟨[("2024", ⟨[("d1", dest_name ⟨100, ⟨2024, 7, 15⟩, "d1", "/src/a.JPG"⟩ 1)], [("202407", 1)]⟩)],
          [("/src/a", (1, 2))], [dest_path "/proj" false ⟨100, ⟨2024, 7, 15⟩, "d1", "/src/a.JPG"⟩ 1],
          ["/src/a.JPG"],
          [("/src/a.JPG", dest_path "/proj" false ⟨100, ⟨2024, 7, 15⟩, "d1", "/src/a.JPG"⟩ 1)],
          [] ⟩ : PlaceState).created = live₅.created ++ [dst] ∧
      fs_sees fs₀ live₅ dst = false) :=
  ⟨(C9_destination_collision_aborts disk₀ fs₁ "/proj" false false).1 live₅
      ⟨100, ⟨2024, 7, 15⟩, "d1", "/src/a.JPG"⟩ "/src/a.JPG" "/proj/2024/202407_0001.JPG" []
      (by decide),
    (C9_destination_collision_aborts disk₀ fs₀ "/proj" false false).2 live₅
      ⟨100, ⟨2024, 7, 15⟩, "d1", "/src/a.JPG"⟩ _ (by decide)⟩

/-! ### Cache faithfulness and equivalence -/

/-- Every cached catalog equals its on-disk load: holds throughout the
duplicate-filter phase, which never mutates catalog contents. -/
def cache_faithful (disk : String → DiskFile) (cache : List (String × Catalog)) : Prop :=
  ∀ y c, (y, c) ∈ cache → c = load_database (disk y)

theorem get_database_fst_eq (disk : String → DiskFile)
    (cache : List (String × Catalog)) (y : String) :
    (get_database disk cache y).1 = (alookup y cache).getD (load_database (disk y)) := by
  unfold get_database
  cases alookup y cache <;> rfl

theorem get_database_fst_of_faithful (disk : String → DiskFile)
    {cache : List (String × Catalog)} (hf : cache_faithful disk cache) (y : String) :
    (get_database disk cache y).1 = load_database (disk y) := by
  unfold get_database
  cases h : alookup y cache with
  | none => rfl
  | some c => exact hf y c (alookup_mem h)

theorem get_database_snd_of_faithful (disk : String → DiskFile)
    {cache : List (String × Catalog)} (hf : cache_faithful disk cache) (y : String) :
    cache_faithful disk (get_database disk cache y).2 := by
  unfold get_database
  cases h : alookup y cache with
  | none =>
      intro y₁ c₁ hm
      rcases mem_upsert hm with he | he
      · rw [Prod.mk.injEq] at he
        rw [he.1]
        exact he.2
      · exact hf y₁ c₁ he
  | some c => exact hf

/-- Two caches are interchangeable when every year resolves to the same
catalog content. -/
def cache_equiv (disk : String → DiskFile)
    (c₁ c₂ : List (String × Catalog)) : Prop :=
  ∀ y, (get_database disk c₁ y).1 = (get_database disk c₂ y).1

theorem cache_equiv_of_faithful (disk : String → DiskFile)
    {c₁ c₂ : List (String × Catalog)}
    (h₁ : cache_faithful disk c₁) (h₂ : cache_faithful disk c₂) :
    cache_equiv disk c₁ c₂ := by
  intro y
  rw [get_database_fst_of_faithful disk h₁, get_database_fst_of_faithful disk h₂]

theorem get_database_snd_some (disk : String → DiskFile)
    {cache : List (String × Catalog)} {y : String} {c : Catalog}
    (h : alookup y cache = some c) : (get_database disk cache y).2 = cache := by
  unfold get_database
  rw [h]

theorem get_database_snd_none (disk : String → DiskFile)
    {cache : List (String × Catalog)} {y : String}
    (h : alookup y cache = none) :
    (get_database disk cache y).2 = upsert y (load_database (disk y)) cache := by
  unfold get_database
  rw [h]

theorem cache_equiv_snd (disk : String → DiskFile)
    (c : List (String × Catalog)) (y : String) :
    cache_equiv disk (get_database disk c y).2 c := by
  intro y₁
  cases h : alookup y c with
  | some c₁ => rw [get_database_snd_some disk h]
  | none =>
      rw [get_database_snd_none disk h, get_database_fst_eq, get_database_fst_eq]
      by_cases he : y₁ = y
      · subst he
        rw [alookup_upsert_self, h]
        rfl
      · rw [alookup_upsert_ne _ _ he]

theorem cache_equiv_upsert (disk : String → DiskFile)
    {c₁ c₂ : List (String × Catalog)} (h : cache_equiv disk c₁ c₂)
    (k : String) (v : Catalog) :
    cache_equiv disk (upsert k v c₁) (upsert k v c₂) := by
  intro y
  rw [get_database_fst_eq, get_database_fst_eq]
  by_cases he : y = k
  · subst he
    rw [alookup_upsert_self, alookup_upsert_self]
  · rw [alookup_upsert_ne _ _ he, alookup_upsert_ne _ _ he,
      ← get_database_fst_eq, ← get_database_fst_eq]
    exact h y

/-! ### Canonical duplicate filter -/

/-- What the duplicate-filter loop contributes, with the cache abstracted
away: the final `accept_map`, the appended `increment_list` items and the
appended `[DUP]` reports. -/
def scan_delta (disk : String → DiskFile) (meta : String → FileMeta) :
    List (String × String) → List String →
    List (String × String) × List Item × List (String × String)
  | accept, [] => (accept, [], [])
  | accept, p :: rest =>
      let m := meta p
      if (alookup m.digest (load_database (disk (toString m.mtime.year))).hash).isSome
          ∨ (alookup m.digest accept).isSome then
        let r := scan_delta disk meta accept rest
        (r.1, r.2.1, (m.digest, p) :: r.2.2)
      else
        let r := scan_delta disk meta (upsert m.digest p accept) rest
        (r.1, ⟨m.birthtime, m.mtime, m.digest, p⟩ :: r.2.1, r.2.2)

theorem dedup_run_eq_scan_delta (disk : String → DiskFile) (meta : String → FileMeta) :
    ∀ (l : List String) (s : ScanState), cache_faithful disk s.cache →
      (dedup_run disk meta s l).accept = (scan_delta disk meta s.accept l).1 ∧
      (dedup_run disk meta s l).incr = s.incr ++ (scan_delta disk meta s.accept l).2.1 ∧
      (dedup_run disk meta s l).dups = s.dups ++ (scan_delta disk meta s.accept l).2.2 ∧
      cache_faithful disk (dedup_run disk meta s l).cache := by
  intro l
  induction l with
  | nil =>
      intro s hf
      exact ⟨rfl, by simp [dedup_run, scan_delta], by simp [dedup_run, scan_delta], hf⟩
  | cons p rest ih =>
      intro s hf
      have hstep : dedup_step disk meta s p =
          if (alookup (meta p).digest
                (load_database (disk (toString (meta p).mtime.year))).hash).isSome
              ∨ (alookup (meta p).digest s.accept).isSome then
            { s with
              cache := (get_database disk s.cache (toString (meta p).mtime.year)).2
              dups := s.dups ++ [((meta p).digest, p)] }
          else
            { cache := (get_database disk s.cache (toString (meta p).mtime.year)).2
              accept := upsert (meta p).digest p s.accept
              incr := s.incr ++ [⟨(meta p).birthtime, (meta p).mtime, (meta p).digest, p⟩]
              dups := s.dups } := by
        unfold dedup_step
        dsimp only
        rw [get_database_fst_of_faithful disk hf]
      have hffstep : cache_faithful disk (dedup_step disk meta s p).cache := by
        rw [hstep]
        split <;> exact get_database_snd_of_faithful disk hf _
      have hrun : dedup_run disk meta s (p :: rest)
          = dedup_run disk meta (dedup_step disk meta s p) rest := rfl
      obtain ⟨h₁, h₂, h₃, h₄⟩ := ih (dedup_step disk meta s p) hffstep
      rw [← hrun] at h₁ h₂ h₃ h₄
      by_cases hdup : (alookup (meta p).digest
            (load_database (disk (toString (meta p).mtime.year))).hash).isSome
          ∨ (alookup (meta p).digest s.accept).isSome
      · have hs : dedup_step disk meta s p =
            { s with
              cache := (get_database disk s.cache (toString (meta p).mtime.year)).2
              dups := s.dups ++ [((meta p).digest, p)] } := by
          rw [hstep, if_pos hdup]
        have hsd : scan_delta disk meta s.accept (p :: rest)
            = ((scan_delta disk meta s.accept rest).1,
                (scan_delta disk meta s.accept rest).2.1,
                ((meta p).digest, p) :: (scan_delta disk meta s.accept rest).2.2) := by
          simp only [scan_delta]
          rw [if_pos hdup]
        rw [hs] at h₁ h₂ h₃
        refine ⟨?_, ?_, ?_, h₄⟩
        · rw [h₁, hsd]
        · rw [h₂, hsd]
        · rw [h₃, hsd]
          simp
      · have hs : dedup_step disk meta s p =
            { cache := (get_database disk s.cache (toString (meta p).mtime.year)).2
              accept := upsert (meta p).digest p s.accept
              incr := s.incr ++ [⟨(meta p).birthtime, (meta p).mtime, (meta p).digest, p⟩]
              dups := s.dups } := by
          rw [hstep, if_neg hdup]
        have hsd : scan_delta disk meta s.accept (p :: rest)
            = ((scan_delta disk meta (upsert (meta p).digest p s.accept) rest).1,
                (⟨(meta p).birthtime, (meta p).mtime, (meta p).digest, p⟩ : Item)
                  :: (scan_delta disk meta (upsert (meta p).digest p s.accept) rest).2.1,
                (scan_delta disk meta (upsert (meta p).digest p s.accept) rest).2.2) := by
          simp only [scan_delta]
          rw [if_neg hdup]
        rw [hs] at h₁ h₂ h₃
        refine ⟨?_, ?_, ?_, h₄⟩
        · rw [h₁, hsd]
        · rw [h₂, hsd]
          simp
        · rw [h₃, hsd]

theorem scan_delta_append (disk : String → DiskFile) (meta : String → FileMeta) :
    ∀ (l₁ l₂ : List String) (accept : List (String × String)),
      scan_delta disk meta accept (l₁ ++ l₂)
        = ((scan_delta disk meta (scan_delta disk meta accept l₁).1 l₂).1,
            (scan_delta disk meta accept l₁).2.1
              ++ (scan_delta disk meta (scan_delta disk meta accept l₁).1 l₂).2.1,
            (scan_delta disk meta accept l₁).2.2
              ++ (scan_delta disk meta (scan_delta disk meta accept l₁).1 l₂).2.2) := by
  intro l₁
  induction l₁ with
  | nil =>
      intro l₂ accept
      simp [scan_delta]
  | cons p rest ih =>
      intro l₂ accept
      by_cases hdup : ((alookup (meta p).digest
            (load_database (disk (toString (meta p).mtime.year))).hash).isSome = true
          ∨ (alookup (meta p).digest accept).isSome = true)
      · simp only [List.cons_append, List.append_eq, scan_delta, hdup, if_true,
          ite_true, eq_self_iff_true]
        rw [ih l₂ accept]
      · simp only [List.cons_append, List.append_eq, scan_delta]
        rw [if_neg hdup, if_neg hdup, ih l₂ (upsert (meta p).digest p accept)]
        rfl

theorem cache_equiv_refl (disk : String → DiskFile) (c : List (String × Catalog)) :
    cache_equiv disk c c := fun _ => rfl

theorem cache_equiv_symm (disk : String → DiskFile)
    {c₁ c₂ : List (String × Catalog)} (h : cache_equiv disk c₁ c₂) :
    cache_equiv disk c₂ c₁ := fun y => (h y).symm

theorem cache_equiv_trans (disk : String → DiskFile)
    {c₁ c₂ c₃ : List (String × Catalog)}
    (h₁ : cache_equiv disk c₁ c₂) (h₂ : cache_equiv disk c₂ c₃) :
    cache_equiv disk c₁ c₃ := fun y => (h₁ y).trans (h₂ y)

/-! ### Equation lemmas for the placement step -/

theorem place_step_none (disk : String → DiskFile) (fs0 : String → Bool)
    (proj : String) (wd wc : Bool) (s : PlaceState) (it : Item)
    (hlk : alookup (str_before_last_dot it.path) s.live = none) :
    place_step disk fs0 proj wd wc s it
      = .error (.typeError (str_before_last_dot it.path)) := by
  unfold place_step
  rw [hlk]

theorem place_step_collision (disk : String → DiskFile) (fs0 : String → Bool)
    (proj : String) (wd wc : Bool) (s : PlaceState) (it : Item) (q : Int) (r : Nat)
    (hlk : alookup (str_before_last_dot it.path) s.live = some (q, r))
    (hfs : fs_sees fs0 s
      (dest_path proj wd it (compute_placement disk s it q r).sequence) = true) :
    place_step disk fs0 proj wd wc s it
      = .error (.dstExists it.path
          (dest_path proj wd it (compute_placement disk s it q r).sequence)) := by
  unfold place_step
  rw [hlk]
  dsimp only
  rw [if_pos hfs]

theorem place_step_ok (disk : String → DiskFile) (fs0 : String → Bool)
    (proj : String) (wd wc : Bool) (s : PlaceState) (it : Item) (q : Int) (r : Nat)
    (hlk : alookup (str_before_last_dot it.path) s.live = some (q, r))
    (hfs : fs_sees fs0 s
      (dest_path proj wd it (compute_placement disk s it q r).sequence) = false) :
    place_step disk fs0 proj wd wc s it
      = .ok { cache := upsert (toString it.mtime.year)
                ⟨upsert it.digest (dest_name it (compute_placement disk s it q r).sequence)
                    (get_database disk s.cache (toString it.mtime.year)).1.hash,
                  (compute_placement disk s it q r).index⟩
                (get_database disk s.cache (toString it.mtime.year)).2
              live := (compute_placement disk s it q r).live
              created := s.created
                ++ [dest_path proj wd it (compute_placement disk s it q r).sequence]
              removed := if wc then s.removed else s.removed ++ [it.path]
              moves := s.moves
                ++ [(it.path, dest_path proj wd it (compute_placement disk s it q r).sequence)]
              allocs := (compute_placement disk s it q r).allocs } := by
  unfold place_step
  rw [hlk]
  dsimp only
  rw [if_neg (by simp [hfs])]

/-- Interchangeability of placement states: equal except for the cache,
which only has to resolve every year to the same catalog content. -/
def similar (disk : String → DiskFile) (s₁ s₂ : PlaceState) : Prop :=
  cache_equiv disk s₁.cache s₂.cache ∧ s₁.live = s₂.live ∧ s₁.created = s₂.created ∧
    s₁.removed = s₂.removed ∧ s₁.moves = s₂.moves ∧ s₁.allocs = s₂.allocs

theorem compute_placement_congr (disk : String → DiskFile)
    {s₁ s₂ : PlaceState} (h : similar disk s₁ s₂) (it : Item) (q : Int) (r : Nat) :
    compute_placement disk s₁ it q r = compute_placement disk s₂ it q r := by
  obtain ⟨hc, hl, -, -, -, ha⟩ := h
  unfold compute_placement
  dsimp only
  rw [hc (toString it.mtime.year), hl, ha]

theorem place_step_similar (disk : String → DiskFile) (fs0 : String → Bool)
    (proj : String) (wd wc : Bool) (it : Item)
    {s₁ s₂ : PlaceState} (h : similar disk s₁ s₂) :
    (∃ e, place_step disk fs0 proj wd wc s₁ it = .error e ∧
          place_step disk fs0 proj wd wc s₂ it = .error e) ∨
    (∃ t₁ t₂, place_step disk fs0 proj wd wc s₁ it = .ok t₁ ∧
          place_step disk fs0 proj wd wc s₂ it = .ok t₂ ∧ similar disk t₁ t₂) := by
  obtain ⟨hc, hl, hcr, hrm, hm, ha⟩ := h
  have hcp := compute_placement_congr disk ⟨hc, hl, hcr, hrm, hm, ha⟩ it
  cases hlk : alookup (str_before_last_dot it.path) s₁.live with
  | none =>
      left
      exact ⟨_, place_step_none disk fs0 proj wd wc s₁ it hlk,
        place_step_none disk fs0 proj wd wc s₂ it (hl ▸ hlk)⟩
  | some pr =>
      obtain ⟨q, r⟩ := pr
      have hlk₂ : alookup (str_before_last_dot it.path) s₂.live = some (q, r) := hl ▸ hlk
      have hfs_eq : fs_sees fs0 s₁
            (dest_path proj wd it (compute_placement disk s₁ it q r).sequence)
          = fs_sees fs0 s₂
            (dest_path proj wd it (compute_placement disk s₂ it q r).sequence) := by
        rw [← hcp q r]
        unfold fs_sees
        rw [hcr, hrm]
      cases hfs : fs_sees fs0 s₁
          (dest_path proj wd it (compute_placement disk s₁ it q r).sequence) with
      | true =>
          left
          refine ⟨_, place_step_collision disk fs0 proj wd wc s₁ it q r hlk hfs, ?_⟩
          rw [place_step_collision disk fs0 proj wd wc s₂ it q r hlk₂ (hfs_eq ▸ hfs), ← hcp q r]
      | false =>
          right
          refine ⟨_, _, place_step_ok disk fs0 proj wd wc s₁ it q r hlk hfs,
            place_step_ok disk fs0 proj wd wc s₂ it q r hlk₂ (hfs_eq ▸ hfs),
            ?_, ?_, ?_, ?_, ?_, ?_⟩
          · dsimp only
            rw [← hcp q r, ← hc (toString it.mtime.year)]
            exact cache_equiv_upsert disk
              (cache_equiv_trans disk (cache_equiv_snd disk s₁.cache (toString it.mtime.year))
                (cache_equiv_trans disk hc
                  (cache_equiv_symm disk (cache_equiv_snd disk s₂.cache (toString it.mtime.year)))))
              _ _
          · dsimp only
            rw [← hcp q r]
          · dsimp only
            rw [hcr, ← hcp q r]
          · dsimp only
            rw [hrm]
          · dsimp only
            rw [hm, ← hcp q r]
          · dsimp only
            rw [← hcp q r]

theorem place_run_similar (disk : String → DiskFile) (fs0 : String → Bool)
    (proj : String) (wd wc : Bool) :
    ∀ (l : List Item) {s₁ s₂ : PlaceState}, similar disk s₁ s₂ →
      (place_run disk fs0 proj wd wc s₁ l).2 = (place_run disk fs0 proj wd wc s₂ l).2 ∧
      similar disk (place_run disk fs0 proj wd wc s₁ l).1
        (place_run disk fs0 proj wd wc s₂ l).1 := by
  intro l
  induction l with
  | nil =>
      intro s₁ s₂ h
      exact ⟨rfl, h⟩
  | cons it rest ih =>
      intro s₁ s₂ h
      rcases place_step_similar disk fs0 proj wd wc it h with
        ⟨e, h₁, h₂⟩ | ⟨t₁, t₂, h₁, h₂, hsim⟩
      · have e₁ : place_run disk fs0 proj wd wc s₁ (it :: rest) = (s₁, some e) := by
          simp only [place_run, h₁]
        have e₂ : place_run disk fs0 proj wd wc s₂ (it :: rest) = (s₂, some e) := by
          simp only [place_run, h₂]
        rw [e₁, e₂]
        exact ⟨rfl, h⟩
      · have e₁ : place_run disk fs0 proj wd wc s₁ (it :: rest)
            = place_run disk fs0 proj wd wc t₁ rest := by
          simp only [place_run, h₁]
        have e₂ : place_run disk fs0 proj wd wc s₂ (it :: rest)
            = place_run disk fs0 proj wd wc t₂ rest := by
          simp only [place_run, h₂]
        rw [e₁, e₂]
        exact ih hsim

theorem scan_delta_all_dup (disk : String → DiskFile) (meta : String → FileMeta) :
    ∀ (l : List String) (accept : List (String × String)),
      (∀ p ∈ l, (alookup (meta p).digest
          (load_database (disk (toString (meta p).mtime.year))).hash).isSome = true) →
      (scan_delta disk meta accept l).1 = accept ∧
      (scan_delta disk meta accept l).2.1 = [] := by
  intro l
  induction l with
  | nil =>
      intro accept _
      exact ⟨rfl, rfl⟩
  | cons p rest ih =>
      intro accept hall
      have hp := hall p (List.mem_cons_self p rest)
      have hdup : ((alookup (meta p).digest
            (load_database (disk (toString (meta p).mtime.year))).hash).isSome = true
          ∨ (alookup (meta p).digest accept).isSome = true) := .inl hp
      have hrest := ih accept (fun q hq => hall q (List.mem_cons_of_mem _ hq))
      constructor
      · simp only [scan_delta]
        rw [if_pos hdup]
        exact hrest.1
      · simp only [scan_delta]
        rw [if_pos hdup]
        exact hrest.2

/-- Claim C4: an asset whose fingerprint is already in its year's hash index
or was accepted earlier in the same run is reported as `[DUP]`, excluded
from the survivor list, and the rest of the run proceeds exactly as if the
duplicate occurrence had not been in the input: same survivors, same
moves, same allocations, same final outcome. -/
theorem C4_duplicate_skipped (disk : String → DiskFile) (meta : String → FileMeta)
    (fs0 : String → Bool) (proj : String) (wd wc : Bool)
    (xs ys : List String) (p : String)
    (hdup : (alookup (meta p).digest
        (load_database (disk (toString (meta p).mtime.year))).hash).isSome = true
      ∨ (alookup (meta p).digest (scan_delta disk meta [] xs).1).isSome = true) :
    ((meta p).digest, p) ∈ (import_assets disk meta fs0 proj wd wc (xs ++ p :: ys)).dups ∧
    (dedup_run disk meta ⟨[], [], [], []⟩ (xs ++ p :: ys)).incr
      = (dedup_run disk meta ⟨[], [], [], []⟩ (xs ++ ys)).incr ∧
    (import_assets disk meta fs0 proj wd wc (xs ++ p :: ys)).moves
      = (import_assets disk meta fs0 proj wd wc (xs ++ ys)).moves ∧
    (import_assets disk meta fs0 proj wd wc (xs ++ p :: ys)).allocs
      = (import_assets disk meta fs0 proj wd wc (xs ++ ys)).allocs ∧
    (import_assets disk meta fs0 proj wd wc (xs ++ p :: ys)).failure
      = (import_assets disk meta fs0 proj wd wc (xs ++ ys)).failure := by
  have hf0 : cache_faithful disk (⟨[], [], [], []⟩ : ScanState).cache := by
    intro y c hm
    exact absurd hm (List.not_mem_nil _)
  obtain ⟨ha₁, hi₁, hd₁, hff₁⟩ :=
    dedup_run_eq_scan_delta disk meta (xs ++ p :: ys) ⟨[], [], [], []⟩ hf0
  obtain ⟨ha₂, hi₂, hd₂, hff₂⟩ :=
    dedup_run_eq_scan_delta disk meta (xs ++ ys) ⟨[], [], [], []⟩ hf0
  have hcons : scan_delta disk meta (scan_delta disk meta [] xs).1 (p :: ys)
      = ((scan_delta disk meta (scan_delta disk meta [] xs).1 ys).1,
          (scan_delta disk meta (scan_delta disk meta [] xs).1 ys).2.1,
          ((meta p).digest, p)
            :: (scan_delta disk meta (scan_delta disk meta [] xs).1 ys).2.2) := by
    simp only [scan_delta]
    rw [if_pos hdup]
  have hincr : (dedup_run disk meta ⟨[], [], [], []⟩ (xs ++ p :: ys)).incr
      = (dedup_run disk meta ⟨[], [], [], []⟩ (xs ++ ys)).incr := by
    rw [hi₁, hi₂, scan_delta_append disk meta xs (p :: ys) [],
      scan_delta_append disk meta xs ys [], hcons]
  have hdups : ((meta p).digest, p)
      ∈ (dedup_run disk meta ⟨[], [], [], []⟩ (xs ++ p :: ys)).dups := by
    rw [hd₁, scan_delta_append disk meta xs (p :: ys) [], hcons]
    simp
  have hsim0 : similar disk
      (⟨(dedup_run disk meta ⟨[], [], [], []⟩ (xs ++ p :: ys)).cache, [], [], [], [], []⟩ :
        PlaceState)
      (⟨(dedup_run disk meta ⟨[], [], [], []⟩ (xs ++ ys)).cache, [], [], [], [], []⟩ :
        PlaceState) :=
    ⟨cache_equiv_of_faithful disk hff₁ hff₂, rfl, rfl, rfl, rfl, rfl⟩
  have hruns := place_run_similar disk fs0 proj wd wc
    (sort_items (dedup_run disk meta ⟨[], [], [], []⟩ (xs ++ ys)).incr) hsim0
  refine ⟨hdups, hincr, ?_, ?_, ?_⟩ <;>
    simp only [import_assets] <;>
    rw [hincr]
  · exact hruns.2.2.2.2.2.1
  · exact hruns.2.2.2.2.2.2
  · rw [hruns.1]

/-- Two files with identical content (same digest) for the in-batch
duplicate scenario. -/
def meta₄ : String → FileMeta := fun p =>
  if p = "/src/a.JPG" then ⟨100, ⟨2023, 5, 1⟩, ⟨2023, 5, 1⟩, "d1"⟩
  else ⟨200, ⟨2023, 5, 2⟩, ⟨2023, 5, 2⟩, "d1"⟩

/-- Witness for C4: `/src/b.JPG` repeats the digest accepted for
`/src/a.JPG` in the same run, is logged as a duplicate, and removing it from
the input changes nothing else about the run. -/
theorem C4_duplicate_skipped_witness :
    ((meta₄ "/src/b.JPG").digest, "/src/b.JPG")
      ∈ (import_assets disk₀ meta₄ fs₀ "/proj" false false
          (["/src/a.JPG"] ++ "/src/b.JPG" :: [])).dups ∧
    (dedup_run disk₀ meta₄ ⟨[], [], [], []⟩ (["/src/a.JPG"] ++ "/src/b.JPG" :: [])).incr
      = (dedup_run disk₀ meta₄ ⟨[], [], [], []⟩ (["/src/a.JPG"] ++ [])).incr ∧
    (import_assets disk₀ meta₄ fs₀ "/proj" false false
        (["/src/a.JPG"] ++ "/src/b.JPG" :: [])).moves
      = (import_assets disk₀ meta₄ fs₀ "/proj" false false (["/src/a.JPG"] ++ [])).moves ∧
    (import_assets disk₀ meta₄ fs₀ "/proj" false false
        (["/src/a.JPG"] ++ "/src/b.JPG" :: [])).allocs
      = (import_assets disk₀ meta₄ fs₀ "/proj" false false (["/src/a.JPG"] ++ [])).allocs ∧
    (import_assets disk₀ meta₄ fs₀ "/proj" false false
        (["/src/a.JPG"] ++ "/src/b.JPG" :: [])).failure
      = (import_assets disk₀ meta₄ fs₀ "/proj" false false (["/src/a.JPG"] ++ [])).failure :=
  C4_duplicate_skipped disk₀ meta₄ fs₀ "/proj" false false
    ["/src/a.JPG"] [] "/src/b.JPG" (by decide)

/-- Claim C8: when every asset's fingerprint is already present in its
year's hash index the run moves nothing, allocates nothing, finishes
without error, and every catalog it writes back is exactly what was loaded
from disk. -/
theorem C8_rerun_without_new_fingerprints (disk : String → DiskFile)
    (meta : String → FileMeta) (fs0 : String → Bool) (proj : String) (wd wc : Bool)
    (assets : List String)
    (hall : ∀ p ∈ assets, (alookup (meta p).digest
        (load_database (disk (toString (meta p).mtime.year))).hash).isSome = true) :
    (import_assets disk meta fs0 proj wd wc assets).moves = [] ∧
    (import_assets disk meta fs0 proj wd wc assets).failure = none ∧
    (import_assets disk meta fs0 proj wd wc assets).allocs = [] ∧
    ∀ y c, (y, c) ∈ (import_assets disk meta fs0 proj wd wc assets).written →
      c = load_database (disk y) := by
  have hf0 : cache_faithful disk (⟨[], [], [], []⟩ : ScanState).cache := by
    intro y c hm
    exact absurd hm (List.not_mem_nil _)
  obtain ⟨ha, hi, hd, hff⟩ := dedup_run_eq_scan_delta disk meta assets ⟨[], [], [], []⟩ hf0
  obtain ⟨hacc, hincr⟩ := scan_delta_all_dup disk meta assets [] hall
  have hincr0 : (dedup_run disk meta ⟨[], [], [], []⟩ assets).incr = [] := by
    rw [hi, hincr]
    exact rfl
  refine ⟨?_, ?_, ?_, ?_⟩ <;> simp only [import_assets] <;> rw [hincr0]
  · rfl
  · rfl
  · rfl
  · intro y c hm
    exact hff y c hm

/-- A project whose 2023 catalog already holds the digest `d1`. -/
def disk₈ : String → DiskFile := fun y =>
  if y = "2023"
  then .doc (some [("d1", "202305_0001.JPG")]) (some [("202305", 2)])
  else .missing

/-- Witness for C8: re-importing `/src/a.JPG` (digest `d1`, year 2023) into
a project that already catalogs `d1` moves nothing and writes the 2023
catalog back unchanged. -/
theorem C8_rerun_without_new_fingerprints_witness :
    (import_assets disk₈ meta₃ fs₀ "/proj" false false ["/src/a.JPG"]).moves = [] ∧
    (import_assets disk₈ meta₃ fs₀ "/proj" false false ["/src/a.JPG"]).failure = none ∧
    (import_assets disk₈ meta₃ fs₀ "/proj" false false ["/src/a.JPG"]).allocs = [] ∧
    (⟨[("d1", "202305_0001.JPG")], [("202305", 2)]⟩ : Catalog)
      = load_database (disk₈ "2023") :=
  have h := C8_rerun_without_new_fingerprints disk₈ meta₃ fs₀ "/proj" false false
    ["/src/a.JPG"] (by decide)
  ⟨h.1, h.2.1, h.2.2.1, h.2.2.2 "2023" ⟨[("d1", "202305_0001.JPG")], [("202305", 2)]⟩
    (by decide)⟩

/-! ### Grouping lemmas for the split tool -/

/-- Concatenation of all bucket contents. -/
def joined {α : Type} (g : List (String × List α)) : List α :=
  (g.map Prod.snd).flatten

/-- Every element of every bucket carries that bucket's key. -/
def buckets_ok {α : Type} (f : α → String) (g : List (String × List α)) : Prop :=
  ∀ y l, (y, l) ∈ g → ∀ e ∈ l, f e = y

theorem alookup_eq_none {β : Type} (k : String) (l : List (String × β)) :
    alookup k l = none ↔ k ∉ l.map Prod.fst := by
  induction l with
  | nil => simp [alookup]
  | cons head tail ih =>
      by_cases h : k = head.1
      · simp [alookup, h]
      · simp [alookup, h, ih]

theorem alookup_of_mem_nodup {β : Type} {k : String} {v : β} {l : List (String × β)}
    (hnd : (l.map Prod.fst).Nodup) (hm : (k, v) ∈ l) : alookup k l = some v := by
  induction l with
  | nil => exact absurd hm (List.not_mem_nil _)
  | cons head tail ih =>
      rcases List.mem_cons.mp hm with he | he
      · rw [← he]
        simp [alookup]
      · have hk : k ≠ head.1 := by
          intro hc
          have : head.1 ∈ tail.map Prod.fst := by
            rw [← hc]
            exact List.mem_map_of_mem Prod.fst he
          exact (List.nodup_cons.mp hnd).1 this
        simp only [alookup, if_neg hk]
        exact ih (List.nodup_cons.mp hnd).2 he

theorem mem_nodup_unique {β : Type} {k : String} {v₁ v₂ : β} {l : List (String × β)}
    (hnd : (l.map Prod.fst).Nodup) (h₁ : (k, v₁) ∈ l) (h₂ : (k, v₂) ∈ l) : v₁ = v₂ := by
  have e₁ := alookup_of_mem_nodup hnd h₁
  have e₂ := alookup_of_mem_nodup hnd h₂
  rw [e₁] at e₂
  exact Option.some_inj.mp e₂

theorem upsert_keys_of_found {β : Type} {k : String} {l : List (String × β)} (v : β)
    (h : alookup k l ≠ none) : (upsert k v l).map Prod.fst = l.map Prod.fst := by
  induction l with
  | nil => simp [alookup] at h
  | cons head tail ih =>
      by_cases hk : k = head.1
      · simp [upsert, hk]
      · simp only [alookup, if_neg hk] at h
        simp [upsert, hk, ih h]

theorem upsert_keys_of_missing {β : Type} {k : String} {l : List (String × β)} (v : β)
    (h : alookup k l = none) : (upsert k v l).map Prod.fst = l.map Prod.fst ++ [k] := by
  induction l with
  | nil => simp [upsert]
  | cons head tail ih =>
      by_cases hk : k = head.1
      · simp [alookup, hk] at h
      · simp only [alookup, if_neg hk] at h
        simp [upsert, hk, ih h]

theorem group_add_keys_nodup {α : Type} {g : List (String × List α)} (y : String) (e : α)
    (hnd : (g.map Prod.fst).Nodup) : ((group_add y e g).map Prod.fst).Nodup := by
  unfold group_add
  cases h : alookup y g with
  | some l =>
      rw [upsert_keys_of_found _ (by rw [h]; exact fun hc => Option.noConfusion hc)]
      exact hnd
  | none =>
      rw [List.map_append]
      simp only [List.map_cons, List.map_nil]
      rw [List.nodup_append]
      exact ⟨hnd, List.nodup_singleton y,
        by
          intro a ha hb
          simp only [List.mem_singleton] at hb
          rw [hb] at ha
          exact (alookup_eq_none y g).mp h ha⟩

theorem group_add_ok {α : Type} {f : α → String} {g : List (String × List α)}
    {y : String} {e : α} (hok : buckets_ok f g) (hfe : f e = y) :
    buckets_ok f (group_add y e g) := by
  unfold group_add
  cases h : alookup y g with
  | some l =>
      intro y₁ l₁ hm e₁ he₁
      rcases mem_upsert hm with hm₁ | hm₁
      · rw [Prod.mk.injEq] at hm₁
        rcases hm₁ with ⟨hy, hl⟩
        subst hy
        subst hl
        rcases List.mem_append.mp he₁ with h₂ | h₂
        · exact hok y₁ l (alookup_mem h) e₁ h₂
        · rw [List.mem_singleton] at h₂
          rw [h₂]
          exact hfe
      · exact hok y₁ l₁ hm₁ e₁ he₁
  | none =>
      intro y₁ l₁ hm e₁ he₁
      rcases List.mem_append.mp hm with hm₁ | hm₁
      · exact hok y₁ l₁ hm₁ e₁ he₁
      · rw [List.mem_singleton, Prod.mk.injEq] at hm₁
        rcases hm₁ with ⟨hy, hl⟩
        subst hy
        subst hl
        rw [List.mem_singleton] at he₁
        rw [he₁]
        exact hfe

theorem joined_cons {α : Type} (x : String × List α) (xs : List (String × List α)) :
    joined (x :: xs) = x.2 ++ joined xs := rfl

theorem joined_append {α : Type} (g₁ g₂ : List (String × List α)) :
    joined (g₁ ++ g₂) = joined g₁ ++ joined g₂ := by
  unfold joined
  rw [List.map_append, List.flatten_append]

theorem append_singleton_perm {α : Type} (a b : List α) (e : α) :
    ((a ++ [e]) ++ b).Perm ((a ++ b) ++ [e]) := by
  rw [List.append_assoc, List.append_assoc]
  exact List.Perm.append_left a List.perm_append_comm

theorem joined_upsert_found {α : Type} {g : List (String × List α)} {y : String}
    {l : List α} (e : α) (h : alookup y g = some l) :
    (joined (upsert y (l ++ [e]) g)).Perm (joined g ++ [e]) := by
  induction g with
  | nil => simp [alookup] at h
  | cons head tail ih =>
      obtain ⟨k₁, v₁⟩ := head
      by_cases hk : y = k₁
      · simp only [alookup, if_pos hk] at h
        have hl : v₁ = l := Option.some_inj.mp h
        subst hl
        simp only [upsert, if_pos hk, joined_cons]
        exact append_singleton_perm _ _ _
      · simp only [alookup, if_neg hk] at h
        simp only [upsert, if_neg hk, joined_cons]
        have hp := List.Perm.append_left v₁ (ih h)
        rw [← List.append_assoc] at hp
        exact hp

theorem joined_group_add {α : Type} (g : List (String × List α)) (y : String) (e : α) :
    (joined (group_add y e g)).Perm (joined g ++ [e]) := by
  unfold group_add
  cases h : alookup y g with
  | some l => exact joined_upsert_found e h
  | none =>
      rw [joined_append]
      simp [joined]

theorem joined_group_entries {α : Type} (f : α → String) :
    ∀ (l : List α) (g : List (String × List α)),
      (joined (group_entries f l g)).Perm (joined g ++ l) := by
  intro l
  induction l with
  | nil =>
      intro g
      simp [group_entries]
  | cons e rest ih =>
      intro g
      have h₁ := ih (group_add (f e) e g)
      have h₂ := (joined_group_add g (f e) e).append_right rest
      have h₃ : (joined g ++ [e]) ++ rest = joined g ++ (e :: rest) := by
        rw [List.append_assoc, List.singleton_append]
      have : (joined (group_entries f rest (group_add (f e) e g))).Perm
          (joined g ++ (e :: rest)) := h₃ ▸ (h₁.trans h₂)
      exact this

theorem group_entries_keys_nodup {α : Type} (f : α → String) :
    ∀ (l : List α) (g : List (String × List α)),
      ((g.map Prod.fst).Nodup) → (((group_entries f l g).map Prod.fst).Nodup) := by
  intro l
  induction l with
  | nil =>
      intro g hnd
      exact hnd
  | cons e rest ih =>
      intro g hnd
      exact ih (group_add (f e) e g) (group_add_keys_nodup (f e) e hnd)

theorem group_entries_ok {α : Type} (f : α → String) :
    ∀ (l : List α) (g : List (String × List α)),
      buckets_ok f g → buckets_ok f (group_entries f l g) := by
  intro l
  induction l with
  | nil =>
      intro g hok
      exact hok
  | cons e rest ih =>
      intro g hok
      exact ih (group_add (f e) e g) (group_add_ok hok rfl)

theorem mem_joined {α : Type} {e : α} {g : List (String × List α)} :
    e ∈ joined g ↔ ∃ y l, (y, l) ∈ g ∧ e ∈ l := by
  unfold joined
  rw [List.mem_flatten]
  constructor
  · rintro ⟨lst, hl, he⟩
    rcases List.mem_map.mp hl with ⟨⟨y, lst₁⟩, hm, hrfl⟩
    rw [← hrfl] at he
    exact ⟨y, lst₁, hm, he⟩
  · rintro ⟨y, lst, hm, he⟩
    exact ⟨lst, List.mem_map_of_mem Prod.snd hm, he⟩

theorem buckets_ok_nil {α : Type} (f : α → String) : buckets_ok f [] :=
  fun _ _ hm => absurd hm (List.not_mem_nil _)

theorem split_write_none (fs0 : String → Bool) (proj : String)
    (gHash : List (String × List (String × String))) :
    ∀ (gI : List (String × List (String × Int)))
      (out : List (String × Catalog)),
      split_write fs0 proj gHash gI = (out, none) →
      out = gI.map (fun yl =>
        (yl.1, (⟨(alookup yl.1 gHash).getD [], yl.2⟩ : Catalog))) := by
  intro gI
  induction gI with
  | nil =>
      intro out h
      simp only [split_write] at h
      rw [Prod.mk.injEq] at h
      rw [← h.1]
      rfl
  | cons hd tl ih =>
      intro out h
      obtain ⟨year, ientries⟩ := hd
      simp only [split_write] at h
      by_cases hdir : fs0 (proj ++ "/" ++ year) = true
      · rw [if_pos hdir] at h
        rw [Prod.mk.injEq] at h
        have hpair : split_write fs0 proj gHash tl
            = ((split_write fs0 proj gHash tl).1, none) := by
          rw [← h.2]
        have htl := ih (split_write fs0 proj gHash tl).1 hpair
        rw [← h.1, List.map_cons, htl]
      · rw [if_neg hdir] at h
        rw [Prod.mk.injEq] at h
        exact absurd h.2 (by simp)

theorem same_keys_mem {α β : Type} {g₁ : List (String × α)} {g₂ : List (String × β)}
    (h : same_keys g₁ g₂ = true) {k : String} (hk : k ∈ g₁.map Prod.fst) :
    k ∈ g₂.map Prod.fst := by
  unfold same_keys at h
  rw [Bool.and_eq_true, List.all_eq_true, List.all_eq_true] at h
  have := h.1 k hk
  simpa using this

theorem same_keys_perm {α β : Type} {g₁ : List (String × α)} {g₂ : List (String × β)}
    (h : same_keys g₁ g₂ = true)
    (h₁ : (g₁.map Prod.fst).Nodup) (h₂ : (g₂.map Prod.fst).Nodup) :
    (g₁.map Prod.fst).Perm (g₂.map Prod.fst) := by
  unfold same_keys at h
  rw [Bool.and_eq_true, List.all_eq_true, List.all_eq_true] at h
  apply List.perm_of_nodup_nodup_toFinset_eq h₁ h₂
  apply Finset.ext
  intro a
  simp only [List.mem_toFinset]
  constructor
  · intro ha
    have := h.1 a ha
    simpa using this
  · intro ha
    have := h.2 a ha
    simpa using this

theorem keys_map_alookup {α : Type} :
    ∀ (g : List (String × List α)), (g.map Prod.fst).Nodup →
      (g.map Prod.fst).map (fun k => (alookup k g).getD []) = g.map Prod.snd := by
  intro g
  induction g with
  | nil =>
      intro _
      rfl
  | cons head tail ih =>
      intro hnd
      obtain ⟨k₀, v₀⟩ := head
      simp only [List.map_cons]
      have hhead : (alookup k₀ ((k₀, v₀) :: tail)).getD [] = v₀ := by
        simp [alookup]
      have htail : (tail.map Prod.fst).map
            (fun k => (alookup k ((k₀, v₀) :: tail)).getD [])
          = (tail.map Prod.fst).map (fun k => (alookup k tail).getD []) := by
        apply List.map_congr_left
        intro k hk
        have hne : k ≠ k₀ := by
          intro hc
          rw [hc] at hk
          exact (List.nodup_cons.mp hnd).1 hk
        simp [alookup, hne]
      rw [hhead, htail, ih (List.nodup_cons.mp hnd).2]

set_option maxHeartbeats 1000000 in
theorem split_partition_aux (gI : List (String × List (String × Int)))
    (gHash : List (String × List (String × String)))
    (dbi : List (String × Int)) (dbh : List (String × String))
    (hndI : (gI.map Prod.fst).Nodup) (hndH : (gHash.map Prod.fst).Nodup)
    (hokI : buckets_ok (fun e : String × Int => str_take e.1 4) gI)
    (hokH : buckets_ok (fun e : String × String => str_take e.2 4) gHash)
    (hsk : same_keys gHash gI = true)
    (hpI : (joined gI).Perm dbi) (hpH : (joined gHash).Perm dbh) :
    (∀ k v, (k, v) ∈ dbi →
      ∃ cat, (str_take k 4, cat) ∈ gI.map (fun yl =>
            (yl.1, (⟨(alookup yl.1 gHash).getD [], yl.2⟩ : Catalog))) ∧
        (k, v) ∈ cat.index ∧
        ∀ y₂ cat₂, (y₂, cat₂) ∈ gI.map (fun yl =>
            (yl.1, (⟨(alookup yl.1 gHash).getD [], yl.2⟩ : Catalog))) →
          (k, v) ∈ cat₂.index → y₂ = str_take k 4 ∧ cat₂ = cat) ∧
    (∀ d n, (d, n) ∈ dbh →
      ∃ cat, (str_take n 4, cat) ∈ gI.map (fun yl =>
            (yl.1, (⟨(alookup yl.1 gHash).getD [], yl.2⟩ : Catalog))) ∧
        (d, n) ∈ cat.hash ∧
        ∀ y₂ cat₂, (y₂, cat₂) ∈ gI.map (fun yl =>
            (yl.1, (⟨(alookup yl.1 gHash).getD [], yl.2⟩ : Catalog))) →
          (d, n) ∈ cat₂.hash → y₂ = str_take n 4 ∧ cat₂ = cat) ∧
    ((gI.map (fun yl =>
          (yl.1, (⟨(alookup yl.1 gHash).getD [], yl.2⟩ : Catalog)))).map
        (fun yc => yc.2.index)).flatten.Perm dbi ∧
    ((gI.map (fun yl =>
          (yl.1, (⟨(alookup yl.1 gHash).getD [], yl.2⟩ : Catalog)))).map
        (fun yc => yc.2.hash)).flatten.Perm dbh := by
  refine ⟨?_, ?_, ?_, ?_⟩
  · intro k v hm
    have hmj : (k, v) ∈ joined gI := hpI.mem_iff.mpr hm
    obtain ⟨y, lst, hbm, he⟩ := mem_joined.mp hmj
    have hy : y = str_take k 4 := (hokI y lst hbm (k, v) he).symm
    rw [hy] at hbm
    refine ⟨⟨(alookup (str_take k 4) gHash).getD [], lst⟩,
      List.mem_map_of_mem _ hbm, he, ?_⟩
    intro y₂ cat₂ hm₂ he₂
    rcases List.mem_map.mp hm₂ with ⟨⟨y₂', l₂⟩, hbm₂, hrfl⟩
    rw [Prod.mk.injEq] at hrfl
    obtain ⟨hy₂, hcat₂⟩ := hrfl
    have he₂' : (k, v) ∈ l₂ := by
      rw [← hcat₂] at he₂
      exact he₂
    have hy₂' : y₂' = str_take k 4 := (hokI y₂' l₂ hbm₂ (k, v) he₂').symm
    rw [hy₂'] at hbm₂
    have hll : l₂ = lst := mem_nodup_unique hndI hbm₂ hbm
    constructor
    · rw [← hy₂, hy₂']
    · rw [← hcat₂, hy₂', hll]
  · intro d n hm
    have hmj : (d, n) ∈ joined gHash := hpH.mem_iff.mpr hm
    obtain ⟨y, lst, hbm, he⟩ := mem_joined.mp hmj
    have hy : y = str_take n 4 := (hokH y lst hbm (d, n) he).symm
    rw [hy] at hbm
    have halk : alookup (str_take n 4) gHash = some lst := alookup_of_mem_nodup hndH hbm
    have hkey : str_take n 4 ∈ gI.map Prod.fst :=
      same_keys_mem hsk (List.mem_map_of_mem Prod.fst hbm)
    rcases List.mem_map.mp hkey with ⟨⟨y₁, lI⟩, hbmI, hfst⟩
    have hy₁ : y₁ = str_take n 4 := hfst
    rw [hy₁] at hbmI
    refine ⟨⟨(alookup (str_take n 4) gHash).getD [], lI⟩,
      List.mem_map_of_mem _ hbmI, ?_, ?_⟩
    · rw [halk]
      exact he
    · intro y₂ cat₂ hm₂ he₂
      rcases List.mem_map.mp hm₂ with ⟨⟨y₂', l₂⟩, hbm₂, hrfl⟩
      rw [Prod.mk.injEq] at hrfl
      obtain ⟨hy₂, hcat₂⟩ := hrfl
      have he₂' : (d, n) ∈ (alookup y₂' gHash).getD [] := by
        rw [← hcat₂] at he₂
        exact he₂
      cases halk₂ : alookup y₂' gHash with
      | none =>
          rw [halk₂] at he₂'
          exact absurd he₂' (List.not_mem_nil _)
      | some lst₂ =>
          rw [halk₂] at he₂'
          have hbmH₂ : (y₂', lst₂) ∈ gHash := alookup_mem halk₂
          have hy₂'' : y₂' = str_take n 4 := (hokH y₂' lst₂ hbmH₂ (d, n) he₂').symm
          rw [hy₂''] at hbm₂
          have hlI : l₂ = lI := mem_nodup_unique hndI hbm₂ hbmI
          constructor
          · rw [← hy₂, hy₂'']
          · rw [← hcat₂, hy₂'', hlI]
  · have e₁ : ((gI.map (fun yl =>
          (yl.1, (⟨(alookup yl.1 gHash).getD [], yl.2⟩ : Catalog)))).map
        (fun yc => yc.2.index)) = gI.map Prod.snd := by
      rw [List.map_map]
      rfl
    rw [e₁]
    exact hpI
  · have e₁ : ((gI.map (fun yl =>
          (yl.1, (⟨(alookup yl.1 gHash).getD [], yl.2⟩ : Catalog)))).map
        (fun yc => yc.2.hash)).flatten
        = ((gI.map Prod.fst).map (fun k => (alookup k gHash).getD [])).flatten := by
      rw [List.map_map, List.map_map]
      rfl
    have p₁ : (((gI.map Prod.fst).map (fun k => (alookup k gHash).getD [])).flatten).Perm
        (((gHash.map Prod.fst).map (fun k => (alookup k gHash).getD [])).flatten) :=
      (List.Perm.map _ (same_keys_perm hsk hndH hndI).symm).flatten
    have p₂ : (((gHash.map Prod.fst).map (fun k => (alookup k gHash).getD [])).flatten).Perm
        dbh := by
      rw [keys_map_alookup gHash hndH]
      exact hpH
    rw [e₁]
    exact p₁.trans p₂

/-- Claim C10: the split tool partitions the aggregate catalog's hash and
index entries by the 4-character year prefix of each destination filename /
label — on success every entry lands in exactly one per-year catalog (the
one keyed by its year prefix), the union of all output catalogs' entries is
a permutation of the original, and the run aborts with the year-mismatch
error when the two groupings derive different year sets. -/
theorem C10_split_partition (fs0 : String → Bool) (proj : String) (db : Catalog) :
    (db.index ≠ [] → db.hash ≠ [] →
      same_keys (group_entries (fun e : String × String => str_take e.2 4) db.hash [])
          (group_entries (fun e : String × Int => str_take e.1 4) db.index []) = false →
      seperate_database fs0 proj db = ([], some .yearMismatch)) ∧
    ((seperate_database fs0 proj db).2 = none →
      (∀ k v, (k, v) ∈ db.index →
        ∃ cat, (str_take k 4, cat) ∈ (seperate_database fs0 proj db).1 ∧
          (k, v) ∈ cat.index ∧
          ∀ y₂ cat₂, (y₂, cat₂) ∈ (seperate_database fs0 proj db).1 →
            (k, v) ∈ cat₂.index → y₂ = str_take k 4 ∧ cat₂ = cat) ∧
      (∀ d n, (d, n) ∈ db.hash →
        ∃ cat, (str_take n 4, cat) ∈ (seperate_database fs0 proj db).1 ∧
          (d, n) ∈ cat.hash ∧
          ∀ y₂ cat₂, (y₂, cat₂) ∈ (seperate_database fs0 proj db).1 →
            (d, n) ∈ cat₂.hash → y₂ = str_take n 4 ∧ cat₂ = cat) ∧
      ((seperate_database fs0 proj db).1.map (fun yc => yc.2.index)).flatten.Perm db.index ∧
      ((seperate_database fs0 proj db).1.map (fun yc => yc.2.hash)).flatten.Perm db.hash) := by
  constructor
  · intro h₁ h₂ hsk
    unfold seperate_database
    rw [if_neg h₁]
    rw [if_neg h₂]
    rw [if_neg (by simp [hsk])]
  · intro her
    by_cases h₁ : db.index = []
    · exfalso
      unfold seperate_database at her
      rw [if_pos h₁] at her
      simp at her
    by_cases h₂ : db.hash = []
    · exfalso
      unfold seperate_database at her
      rw [if_neg h₁] at her
      rw [if_pos h₂] at her
      simp at her
    by_cases hsk : same_keys
        (group_entries (fun e : String × String => str_take e.2 4) db.hash [])
        (group_entries (fun e : String × Int => str_take e.1 4) db.index []) = true
    case neg =>
      exfalso
      unfold seperate_database at her
      rw [if_neg h₁] at her
      rw [if_neg h₂] at her
      rw [if_neg hsk] at her
      simp at her
    have hsede : seperate_database fs0 proj db
        = split_write fs0 proj
            (group_entries (fun e : String × String => str_take e.2 4) db.hash [])
            (group_entries (fun e : String × Int => str_take e.1 4) db.index []) := by
      unfold seperate_database
      rw [if_neg h₁]
      rw [if_neg h₂]
      rw [if_pos hsk]
    rw [hsede] at her ⊢
    have hsw : split_write fs0 proj
        (group_entries (fun e : String × String => str_take e.2 4) db.hash [])
        (group_entries (fun e : String × Int => str_take e.1 4) db.index [])
        = ((split_write fs0 proj
            (group_entries (fun e : String × String => str_take e.2 4) db.hash [])
            (group_entries (fun e : String × Int => str_take e.1 4) db.index [])).1,
          none) := by
      rw [← her]
    have hout := split_write_none fs0 proj
      (group_entries (fun e : String × String => str_take e.2 4) db.hash [])
      (group_entries (fun e : String × Int => str_take e.1 4) db.index []) _ hsw
    rw [hsw, hout]
    exact split_partition_aux
      (group_entries (fun e : String × Int => str_take e.1 4) db.index [])
      (group_entries (fun e : String × String => str_take e.2 4) db.hash [])
      db.index db.hash
      (group_entries_keys_nodup _ db.index [] (by simp))
      (group_entries_keys_nodup _ db.hash [] (by simp))
      (group_entries_ok _ db.index [] (buckets_ok_nil _))
      (group_entries_ok _ db.hash [] (buckets_ok_nil _))
      hsk
      (joined_group_entries _ db.index [])
      (joined_group_entries _ db.hash [])

/-- An aggregate two-year catalog for the split witness. -/
def db₁₀ : Catalog :=
  ⟨[("h1", "202305_0001.JPG"), ("h2", "202406_0001.MOV")],
    [("202305", 2), ("202406", 2)]⟩

/-- Witness for C10: splitting a two-year aggregate succeeds with union
preserved, the entry `("202305", 2)` lands in the catalog keyed `2023`, and
an aggregate whose hash years lack 2024 aborts with the year mismatch. -/
theorem C10_split_partition_witness :
    (∃ cat, (str_take "202305" 4, cat) ∈ (seperate_database fs₁ "/p" db₁₀).1 ∧
      ("202305", (2 : Int)) ∈ cat.index ∧
      ∀ y₂ cat₂, (y₂, cat₂) ∈ (seperate_database fs₁ "/p" db₁₀).1 →
        ("202305", (2 : Int)) ∈ cat₂.index → y₂ = str_take "202305" 4 ∧ cat₂ = cat) ∧
    ((seperate_database fs₁ "/p" db₁₀).1.map (fun yc => yc.2.index)).flatten.Perm
      db₁₀.index ∧
    ((seperate_database fs₁ "/p" db₁₀).1.map (fun yc => yc.2.hash)).flatten.Perm
      db₁₀.hash ∧
    seperate_database fs₁ "/p"
        ⟨[("h1", "202305_0001.JPG")], [("202305", 2), ("202406", 2)]⟩
      = ([], some .yearMismatch) :=
  have h := (C10_split_partition fs₁ "/p" db₁₀).2 (by decide)
  ⟨h.1 "202305" 2 (by decide), h.2.2.1, h.2.2.2,
    (C10_split_partition fs₁ "/p"
        ⟨[("h1", "202305_0001.JPG")], [("202305", 2), ("202406", 2)]⟩).1
      (by decide) (by decide) (by decide)⟩

/-! ### Sequence counter invariants -/

/-- The label's counter as the run sees it: the `index` entry of the year's
catalog, resolved through the cache. -/
def ctr (disk : String → DiskFile) (cache : List (String × Catalog))
    (yn lab : String) : Option Int :=
  alookup lab (get_database disk cache yn).1.index

/-- The sequence values allocated under one (year, label) pair, in order. -/
def allocs_of (yn lab : String) (l : List (String × String × Int)) : List Int :=
  (l.filter (fun e => e.1 == yn && e.2.1 == lab)).map (fun e => e.2.2)

theorem allocs_of_append (yn lab : String) (l₁ l₂ : List (String × String × Int)) :
    allocs_of yn lab (l₁ ++ l₂) = allocs_of yn lab l₁ ++ allocs_of yn lab l₂ := by
  unfold allocs_of
  rw [List.filter_append, List.map_append]

theorem allocs_of_single_same (yn lab : String) (v : Int) :
    allocs_of yn lab [(yn, lab, v)] = [v] := by
  simp [allocs_of]

theorem allocs_of_single_other {yn lab yn₀ lab₀ : String} (v : Int)
    (h : ¬(yn₀ = yn ∧ lab₀ = lab)) :
    allocs_of yn lab [(yn₀, lab₀, v)] = [] := by
  by_cases h₁ : yn₀ = yn
  · have h₂ : ¬ lab₀ = lab := fun hc => h ⟨h₁, hc⟩
    simp [allocs_of, h₁, h₂]
  · simp [allocs_of, h₁]

theorem ctr_upsert_same (disk : String → DiskFile) (c : List (String × Catalog))
    (yn : String) (cat : Catalog) (lab : String) :
    ctr disk (upsert yn cat c) yn lab = alookup lab cat.index := by
  unfold ctr
  rw [get_database_fst_eq, alookup_upsert_self]
  rfl

theorem ctr_upsert_other (disk : String → DiskFile) (c : List (String × Catalog))
    {yn yn₀ : String} (cat : Catalog) (lab : String) (h : yn ≠ yn₀) :
    ctr disk (upsert yn₀ cat c) yn lab = ctr disk c yn lab := by
  unfold ctr
  rw [get_database_fst_eq, get_database_fst_eq, alookup_upsert_ne _ _ h]

theorem ctr_snd (disk : String → DiskFile) (c : List (String × Catalog))
    (y yn lab : String) :
    ctr disk (get_database disk c y).2 yn lab = ctr disk c yn lab := by
  unfold ctr
  rw [cache_equiv_snd disk c y yn]

theorem index0_of_none {I : List (String × Int)} {lab : String}
    (h : alookup lab I = none) :
    (if (alookup lab I).isNone then upsert lab 1 I else I) = upsert lab 1 I := by
  rw [h]
  simp

theorem index0_of_some {I : List (String × Int)} {lab : String} {c : Int}
    (h : alookup lab I = some c) :
    (if (alookup lab I).isNone then upsert lab 1 I else I) = I := by
  rw [h]
  simp

theorem compute_placement_ctr (disk : String → DiskFile) (u : PlaceState)
    (it : Item) (q : Int) (r : Nat) :
    (((compute_placement disk u it q r).allocs = u.allocs ∧
      alookup (year_label it.mtime) (compute_placement disk u it q r).index
        = some ((ctr disk u.cache (toString it.mtime.year) (year_label it.mtime)).getD 1))
    ∨ ((compute_placement disk u it q r).allocs
        = u.allocs ++ [(toString it.mtime.year, year_label it.mtime,
            (ctr disk u.cache (toString it.mtime.year) (year_label it.mtime)).getD 1)] ∧
      alookup (year_label it.mtime) (compute_placement disk u it q r).index
        = some ((ctr disk u.cache (toString it.mtime.year) (year_label it.mtime)).getD 1 + 1))) ∧
    (∀ lab, lab ≠ year_label it.mtime →
      alookup lab (compute_placement disk u it q r).index
        = ctr disk u.cache (toString it.mtime.year) lab) := by
  have hctr : ctr disk u.cache (toString it.mtime.year) (year_label it.mtime)
      = alookup (year_label it.mtime)
          (get_database disk u.cache (toString it.mtime.year)).1.index := rfl
  have hctr₂ : ∀ lab, ctr disk u.cache (toString it.mtime.year) lab
      = alookup lab
          (get_database disk u.cache (toString it.mtime.year)).1.index :=
    fun _ => rfl
  by_cases hb : (if r ≥ 2 then (0 : Int) else q) = 0
  · cases hinit : alookup (year_label it.mtime)
        (get_database disk u.cache (toString it.mtime.year)).1.index with
    | none =>
        unfold compute_placement
        dsimp only
        rw [if_pos hb]
        dsimp only
        rw [index0_of_none hinit, alookup_upsert_self, hctr, hinit]
        refine ⟨.inr ⟨rfl, ?_⟩, ?_⟩
        · rw [alookup_upsert_self]
          rfl
        · intro lab hlab
          rw [alookup_upsert_ne _ _ hlab, alookup_upsert_ne _ _ hlab, hctr₂ lab]
    | some c =>
        unfold compute_placement
        dsimp only
        rw [if_pos hb]
        dsimp only
        rw [index0_of_some hinit, hinit, hctr, hinit]
        refine ⟨.inr ⟨rfl, ?_⟩, ?_⟩
        · rw [alookup_upsert_self]
          rfl
        · intro lab hlab
          rw [alookup_upsert_ne _ _ hlab, hctr₂ lab]
  · cases hinit : alookup (year_label it.mtime)
        (get_database disk u.cache (toString it.mtime.year)).1.index with
    | none =>
        unfold compute_placement
        dsimp only
        rw [if_neg hb]
        dsimp only
        rw [index0_of_none hinit, hctr, hinit]
        refine ⟨.inl ⟨rfl, ?_⟩, ?_⟩
        · rw [alookup_upsert_self]
          rfl
        · intro lab hlab
          rw [alookup_upsert_ne _ _ hlab, hctr₂ lab]
    | some c =>
        unfold compute_placement
        dsimp only
        rw [if_neg hb]
        dsimp only
        rw [index0_of_some hinit, hinit, hctr, hinit]
        refine ⟨.inl ⟨rfl, rfl⟩, ?_⟩
        intro lab hlab
        rw [hctr₂ lab]

theorem place_step_ctr (disk : String → DiskFile) (fs0 : String → Bool)
    (proj : String) (wd wc : Bool) (u t : PlaceState) (it : Item)
    (h : place_step disk fs0 proj wd wc u it = .ok t) :
    (∀ yn lab, ¬(yn = toString it.mtime.year ∧ lab = year_label it.mtime) →
        ctr disk t.cache yn lab = ctr disk u.cache yn lab) ∧
    ((t.allocs = u.allocs ∧
        ctr disk t.cache (toString it.mtime.year) (year_label it.mtime)
          = some ((ctr disk u.cache (toString it.mtime.year)
              (year_label it.mtime)).getD 1))
      ∨ (t.allocs = u.allocs ++ [(toString it.mtime.year, year_label it.mtime,
            (ctr disk u.cache (toString it.mtime.year) (year_label it.mtime)).getD 1)] ∧
        ctr disk t.cache (toString it.mtime.year) (year_label it.mtime)
          = some ((ctr disk u.cache (toString it.mtime.year)
              (year_label it.mtime)).getD 1 + 1))) := by
  cases hlk : alookup (str_before_last_dot it.path) u.live with
  | none =>
      rw [place_step_none disk fs0 proj wd wc u it hlk] at h
      exact Except.noConfusion h
  | some pr =>
      obtain ⟨q, r⟩ := pr
      cases hfs : fs_sees fs0 u
          (dest_path proj wd it (compute_placement disk u it q r).sequence) with
      | true =>
          rw [place_step_collision disk fs0 proj wd wc u it q r hlk hfs] at h
          exact Except.noConfusion h
      | false =>
          rw [place_step_ok disk fs0 proj wd wc u it q r hlk hfs] at h
          have ht := (Except.ok.inj h).symm
          subst ht
          obtain ⟨hmain, hother⟩ := compute_placement_ctr disk u it q r
          constructor
          · intro yn lab hne
            dsimp only
            by_cases hy : yn = toString it.mtime.year
            · subst hy
              have hlab : lab ≠ year_label it.mtime := fun hc => hne ⟨rfl, hc⟩
              rw [ctr_upsert_same]
              exact hother lab hlab
            · rw [ctr_upsert_other disk _ _ _ hy, ctr_snd]
          · dsimp only
            rw [ctr_upsert_same]
            exact hmain

/-- Run invariant for the sequence counters, relative to the loop's initial
state `s₀`: counters only grow, stay positive, and the allocation log under
every (year, label) pair is strictly increasing, positive, below the current
counter, and begins at 1 for labels the run itself initialized. -/
def ctr_inv (disk : String → DiskFile) (s₀ u : PlaceState) : Prop :=
  (∀ yn lab c₀, ctr disk s₀.cache yn lab = some c₀ →
      ∃ c, ctr disk u.cache yn lab = some c ∧ c₀ ≤ c) ∧
  (∀ yn lab c, ctr disk u.cache yn lab = some c → 1 ≤ c) ∧
  (∀ yn lab, List.Pairwise (· < ·) (allocs_of yn lab u.allocs)) ∧
  (∀ yn lab v, v ∈ allocs_of yn lab u.allocs →
      1 ≤ v ∧ ∃ c, ctr disk u.cache yn lab = some c ∧ v < c) ∧
  (∀ yn lab, ctr disk s₀.cache yn lab = none →
      (allocs_of yn lab u.allocs = [] ∧
        (ctr disk u.cache yn lab = none ∨ ctr disk u.cache yn lab = some 1)) ∨
      (allocs_of yn lab u.allocs).head? = some 1)

theorem ctr_inv_step (disk : String → DiskFile) (fs0 : String → Bool)
    (proj : String) (wd wc : Bool) (s₀ u t : PlaceState) (it : Item)
    (h : place_step disk fs0 proj wd wc u it = .ok t)
    (hinv : ctr_inv disk s₀ u) : ctr_inv disk s₀ t := by
  obtain ⟨hother, hmain⟩ := place_step_ctr disk fs0 proj wd wc u t it h
  obtain ⟨i₁, i₂, i₃, i₄, i₅⟩ := hinv
  rcases hmain with ⟨hal, hc⟩ | ⟨hal, hc⟩
  · refine ⟨?_, ?_, ?_, ?_, ?_⟩
    · intro yn lab c₀ h₀
      by_cases hp : yn = toString it.mtime.year ∧ lab = year_label it.mtime
      · obtain ⟨hy, hl⟩ := hp
        subst hy
        subst hl
        obtain ⟨c, hcu, hle⟩ := i₁ _ _ _ h₀
        refine ⟨_, hc, ?_⟩
        rw [hcu]
        simpa using hle
      · rw [hother yn lab hp]
        exact i₁ yn lab c₀ h₀
    · intro yn lab c hcx
      by_cases hp : yn = toString it.mtime.year ∧ lab = year_label it.mtime
      · obtain ⟨hy, hl⟩ := hp
        subst hy
        subst hl
        rw [hc] at hcx
        have hcv := Option.some_inj.mp hcx
        cases hcu : ctr disk u.cache (toString it.mtime.year) (year_label it.mtime) with
        | none =>
            rw [hcu] at hcv
            simp only [Option.getD_none] at hcv
            omega
        | some c₁ =>
            rw [hcu] at hcv
            have := i₂ _ _ _ hcu
            simp only [Option.getD_some] at hcv
            omega
      · rw [hother yn lab hp] at hcx
        exact i₂ yn lab c hcx
    · intro yn lab
      rw [hal]
      exact i₃ yn lab
    · intro yn lab v hv
      rw [hal] at hv
      obtain ⟨hv1, c, hcu, hvc⟩ := i₄ yn lab v hv
      by_cases hp : yn = toString it.mtime.year ∧ lab = year_label it.mtime
      · obtain ⟨hy, hl⟩ := hp
        subst hy
        subst hl
        refine ⟨hv1, _, hc, ?_⟩
        rw [hcu]
        simpa using hvc
      · rw [hother yn lab hp]
        exact ⟨hv1, c, hcu, hvc⟩
    · intro yn lab hn
      by_cases hp : yn = toString it.mtime.year ∧ lab = year_label it.mtime
      · obtain ⟨hy, hl⟩ := hp
        subst hy
        subst hl
        rcases i₅ _ _ hn with ⟨hemp, hopt⟩ | hh
        · left
          rw [hal]
          refine ⟨hemp, .inr ?_⟩
          rw [hc]
          rcases hopt with h₁ | h₁ <;> rw [h₁] <;> rfl
        · right
          rw [hal]
          exact hh
      · rcases i₅ _ _ hn with ⟨hemp, hopt⟩ | hh
        · left
          rw [hal]
          exact ⟨hemp, by rw [hother yn lab hp]; exact hopt⟩
        · right
          rw [hal]
          exact hh
  · have hw1 : 1 ≤ (ctr disk u.cache (toString it.mtime.year) (year_label it.mtime)).getD 1 := by
      cases hcu : ctr disk u.cache (toString it.mtime.year) (year_label it.mtime) with
      | none => simp
      | some c =>
          simpa using i₂ _ _ _ hcu
    refine ⟨?_, ?_, ?_, ?_, ?_⟩
    · intro yn lab c₀ h₀
      by_cases hp : yn = toString it.mtime.year ∧ lab = year_label it.mtime
      · obtain ⟨hy, hl⟩ := hp
        subst hy
        subst hl
        obtain ⟨c, hcu, hle⟩ := i₁ _ _ _ h₀
        refine ⟨_, hc, ?_⟩
        rw [hcu]
        simp only [Option.getD_some]
        omega
      · rw [hother yn lab hp]
        exact i₁ yn lab c₀ h₀
    · intro yn lab c hcx
      by_cases hp : yn = toString it.mtime.year ∧ lab = year_label it.mtime
      · obtain ⟨hy, hl⟩ := hp
        subst hy
        subst hl
        rw [hc] at hcx
        have hcv := Option.some_inj.mp hcx
        omega
      · rw [hother yn lab hp] at hcx
        exact i₂ yn lab c hcx
    · intro yn lab
      rw [hal, allocs_of_append]
      by_cases hp : toString it.mtime.year = yn ∧ year_label it.mtime = lab
      · obtain ⟨hy, hl⟩ := hp
        subst hy
        subst hl
        rw [allocs_of_single_same]
        rw [List.pairwise_append]
        refine ⟨i₃ _ _, List.pairwise_singleton _ _, ?_⟩
        intro a ha b hb
        rw [List.mem_singleton] at hb
        subst hb
        obtain ⟨-, c, hcu, hac⟩ := i₄ _ _ a ha
        rw [hcu]
        simp only [Option.getD_some]
        exact hac
      · rw [allocs_of_single_other _ hp, List.append_nil]
        exact i₃ yn lab
    · intro yn lab v hv
      rw [hal, allocs_of_append] at hv
      by_cases hp : toString it.mtime.year = yn ∧ year_label it.mtime = lab
      · obtain ⟨hy, hl⟩ := hp
        subst hy
        subst hl
        rw [allocs_of_single_same] at hv
        rcases List.mem_append.mp hv with hv₁ | hv₁
        · obtain ⟨hv1, c, hcu, hvc⟩ := i₄ _ _ v hv₁
          refine ⟨hv1, _, hc, ?_⟩
          rw [hcu]
          simp only [Option.getD_some]
          omega
        · rw [List.mem_singleton] at hv₁
          subst hv₁
          exact ⟨hw1, _, hc, by omega⟩
      · rw [allocs_of_single_other _ hp, List.append_nil] at hv
        obtain ⟨hv1, c, hcu, hvc⟩ := i₄ _ _ v hv
        have hp₂ : ¬(yn = toString it.mtime.year ∧ lab = year_label it.mtime) := by
          intro hcon
          exact hp ⟨hcon.1.symm, hcon.2.symm⟩
        rw [hother yn lab hp₂]
        exact ⟨hv1, c, hcu, hvc⟩
    · intro yn lab hn
      by_cases hp : toString it.mtime.year = yn ∧ year_label it.mtime = lab
      · obtain ⟨hy, hl⟩ := hp
        subst hy
        subst hl
        right
        rw [hal, allocs_of_append, allocs_of_single_same]
        rcases i₅ _ _ hn with ⟨hemp, hopt⟩ | hh
        · rw [hemp, List.nil_append, List.head?_cons]
          rcases hopt with h₁ | h₁ <;> rw [h₁] <;> rfl
        · cases holds : allocs_of (toString it.mtime.year) (year_label it.mtime) u.allocs with
          | nil =>
              rw [holds] at hh
              exact absurd hh (by simp)
          | cons a as =>
              rw [holds] at hh
              rw [List.head?_cons] at hh
              rw [List.cons_append, List.head?_cons]
              exact hh
      · have hp₂ : ¬(yn = toString it.mtime.year ∧ lab = year_label it.mtime) := by
          intro hcon
          exact hp ⟨hcon.1.symm, hcon.2.symm⟩
        rw [hal, allocs_of_append, allocs_of_single_other _ hp, List.append_nil]
        rcases i₅ _ _ hn with ⟨hemp, hopt⟩ | hh
        · left
          exact ⟨hemp, by rw [hother yn lab hp₂]; exact hopt⟩
        · right
          exact hh

theorem ctr_inv_run (disk : String → DiskFile) (fs0 : String → Bool)
    (proj : String) (wd wc : Bool) (s₀ : PlaceState) :
    ∀ (l : List Item) (u : PlaceState), ctr_inv disk s₀ u →
      ctr_inv disk s₀ (place_run disk fs0 proj wd wc u l).1 := by
  intro l
  induction l with
  | nil =>
      intro u hu
      exact hu
  | cons it rest ih =>
      intro u hu
      cases hstep : place_step disk fs0 proj wd wc u it with
      | ok t =>
          have e : place_run disk fs0 proj wd wc u (it :: rest)
              = place_run disk fs0 proj wd wc t rest := by
            simp only [place_run, hstep]
          rw [e]
          exact ih t (ctr_inv_step disk fs0 proj wd wc s₀ u t it hstep hu)
      | error e₁ =>
          have e : place_run disk fs0 proj wd wc u (it :: rest) = (u, some e₁) := by
            simp only [place_run, hstep]
          rw [e]
          exact hu

/-- Claim C3: over any placement run, every label's counter is created at 1
and only ever increases; the sequence values allocated under one
(year, label) pair form a strictly increasing run of positive integers with
no reuse, every allocated value stays below (hence ≤) the label's current
counter, and the first value allocated for a label the run itself
initialized is 1. -/
theorem C3_sequence_allocation_invariants (disk : String → DiskFile)
    (fs0 : String → Bool) (proj : String) (wd wc : Bool)
    (items : List Item) (s : PlaceState)
    (hallocs : s.allocs = [])
    (hpos : ∀ yn lab v, ctr disk s.cache yn lab = some v → 1 ≤ v) :
    (∀ yn lab c₀, ctr disk s.cache yn lab = some c₀ →
        ∃ c, ctr disk (place_run disk fs0 proj wd wc s items).1.cache yn lab
          = some c ∧ c₀ ≤ c) ∧
    (∀ yn lab, List.Pairwise (· < ·)
        (allocs_of yn lab (place_run disk fs0 proj wd wc s items).1.allocs)) ∧
    (∀ yn lab v,
        v ∈ allocs_of yn lab (place_run disk fs0 proj wd wc s items).1.allocs →
        1 ≤ v ∧ ∃ c, ctr disk (place_run disk fs0 proj wd wc s items).1.cache yn lab
          = some c ∧ v < c) ∧
    (∀ yn lab, ctr disk s.cache yn lab = none →
        ∀ v, (allocs_of yn lab
            (place_run disk fs0 proj wd wc s items).1.allocs).head? = some v →
          v = 1) := by
  have h0 : ctr_inv disk s s := by
    refine ⟨?_, hpos, ?_, ?_, ?_⟩
    · intro yn lab c₀ hc
      exact ⟨c₀, hc, le_refl c₀⟩
    · intro yn lab
      rw [hallocs]
      simp [allocs_of]
    · intro yn lab v hv
      rw [hallocs] at hv
      simp [allocs_of] at hv
    · intro yn lab hn
      left
      rw [hallocs]
      exact ⟨by simp [allocs_of], .inl hn⟩
  obtain ⟨i₁, i₂, i₃, i₄, i₅⟩ := ctr_inv_run disk fs0 proj wd wc s items s h0
  refine ⟨i₁, i₃, i₄, ?_⟩
  intro yn lab hn v hv
  rcases i₅ yn lab hn with ⟨hemp, -⟩ | hhead
  · rw [hemp] at hv
    exact absurd hv (by simp)
  · rw [hv] at hhead
    exact Option.some_inj.mp hhead

/-- A state whose companion map carries `/src/a` with member count 2, so
the next `/src/a.*` asset takes the fresh-allocation path. -/
def s₉ : PlaceState := ⟨[], [("/src/a", (7, 2))], [], [], [], []⟩

/-- Witness for C3 on a run that performs one allocation under year 2024,
label 202407: the allocation log is strictly increasing, and the allocated
value 1 is positive and below the label's final counter. -/
theorem C3_sequence_allocation_witness :
    List.Pairwise (· < ·) (allocs_of "2024" "202407"
      (place_run disk₀ fs₀ "/proj" false false s₉
        [⟨100, ⟨2024, 7, 15⟩, "d1", "/src/a.JPG"⟩]).1.allocs) ∧
    (1 ≤ (1 : Int) ∧ ∃ c, ctr disk₀
        (place_run disk₀ fs₀ "/proj" false false s₉
          [⟨100, ⟨2024, 7, 15⟩, "d1", "/src/a.JPG"⟩]).1.cache "2024" "202407"
      = some c ∧ (1 : Int) < c) :=
  have h := C3_sequence_allocation_invariants disk₀ fs₀ "/proj" false false
    [⟨100, ⟨2024, 7, 15⟩, "d1", "/src/a.JPG"⟩] s₉ rfl
    (fun yn lab v hv => absurd hv (by
      simp [ctr, get_database, alookup, load_database, disk₀]))
  ⟨h.2.1 "2024" "202407", h.2.2.1 "2024" "202407" 1 (by decide)⟩

end AlbumArrange
